import Mathlib

/-!  Calendar model: JavaScript `Date` (UTC), day numbers counted from 1970-01-01. -/

/-- Proleptic Gregorian leap-year rule (as used by `Date.UTC`). -/
def isLeap (y : Int) : Bool :=
  (y % 4 == 0 && y % 100 != 0) || y % 400 == 0

/-- Day number (days since 1970-01-01) of January 1 of year `y`. -/
def daysBeforeYear (y : Int) : Int :=
  365 * (y - 1) + (y - 1) / 4 - (y - 1) / 100 + (y - 1) / 400 - 719162

/-- Days in the months before month `m` (1-based) of a (non-)leap year. -/
def daysBeforeMonth (leap : Bool) (m : Nat) : Nat :=
  (match m with
   | 1 => 0 | 2 => 31 | 3 => 59 | 4 => 90 | 5 => 120 | 6 => 151
   | 7 => 181 | 8 => 212 | 9 => 243 | 10 => 273 | 11 => 304 | _ => 334)
  + (if 3 ≤ m then (if leap then 1 else 0) else 0)

/-- Length of month `m` in a (non-)leap year. -/
def daysInMonthL (leap : Bool) (m : Nat) : Nat :=
  if m = 2 then (if leap then 29 else 28)
  else if m = 4 ∨ m = 6 ∨ m = 9 ∨ m = 11 then 30 else 31

/-- A valid proleptic Gregorian calendar date. -/
def validDate (y : Int) (m d : Nat) : Bool :=
  decide (1 ≤ m) && decide (m ≤ 12) && decide (1 ≤ d) && decide (d ≤ daysInMonthL (isLeap y) m)

/-- Day number of the calendar date `y-m-d` (the value `Date.UTC(y, m-1, d)`
    divided by 86400000). -/
def daysFromCivil (y : Int) (m d : Nat) : Int :=
  daysBeforeYear y + (daysBeforeMonth (isLeap y) m : Int) + ((d : Int) - 1)

/-- `getUTCDay`: 0 = Sunday … 6 = Saturday.  Day 0 (1970-01-01) was a Thursday (4). -/
def weekday (n : Int) : Int := (n + 4) % 7

/-- The calendar year containing day number `n` (JS `getUTCFullYear`): the unique `y`
    with `daysBeforeYear y ≤ n < daysBeforeYear (y+1)`, computed by a floor-division
    approximation plus a bounded correction. -/
def yearOfDay (n : Int) : Int :=
  let q : Int := (400 * n) / 146097
  if n < daysBeforeYear (1969 + q) then 1968 + q
  else if n < daysBeforeYear (1970 + q) then 1969 + q
  else if n < daysBeforeYear (1971 + q) then 1970 + q
  else if n < daysBeforeYear (1972 + q) then 1971 + q
  else 1972 + q

theorem daysBeforeYear_succ (y : Int) :
    daysBeforeYear (y + 1) = daysBeforeYear y + (if isLeap y then 366 else 365) := by
  simp only [daysBeforeYear, isLeap]
  split <;> rename_i h
  · simp only [Bool.or_eq_true, Bool.and_eq_true, beq_iff_eq, bne_iff_ne] at h
    omega
  · simp only [Bool.or_eq_true, Bool.and_eq_true, beq_iff_eq, bne_iff_ne] at h
    push_neg at h
    omega

theorem daysBeforeYear_mono {y z : Int} (h : y ≤ z) :
    daysBeforeYear y ≤ daysBeforeYear z := by
  simp only [daysBeforeYear]
  omega

theorem daysBeforeYear_lt {y z : Int} (h : y < z) :
    daysBeforeYear y < daysBeforeYear z := by
  simp only [daysBeforeYear]
  omega

theorem yearOfDay_spec (n : Int) :
    daysBeforeYear (yearOfDay n) ≤ n ∧ n < daysBeforeYear (yearOfDay n + 1) := by
  have hlow : daysBeforeYear (1968 + (400 * n) / 146097) ≤ n := by
    simp only [daysBeforeYear]; omega
  have hhigh : n < daysBeforeYear (1973 + (400 * n) / 146097) := by
    simp only [daysBeforeYear]; omega
  simp only [yearOfDay]
  split <;> rename_i h1
  · rw [show (1968 : Int) + 400 * n / 146097 + 1 = 1969 + 400 * n / 146097 by ring]
    exact ⟨hlow, h1⟩
  · split <;> rename_i h2
    · rw [show (1969 : Int) + 400 * n / 146097 + 1 = 1970 + 400 * n / 146097 by ring]
      exact ⟨by omega, h2⟩
    · split <;> rename_i h3
      · rw [show (1970 : Int) + 400 * n / 146097 + 1 = 1971 + 400 * n / 146097 by ring]
        exact ⟨by omega, h3⟩
      · split <;> rename_i h4
        · rw [show (1971 : Int) + 400 * n / 146097 + 1 = 1972 + 400 * n / 146097 by ring]
          exact ⟨by omega, h4⟩
        · rw [show (1972 : Int) + 400 * n / 146097 + 1 = 1973 + 400 * n / 146097 by ring]
          exact ⟨by omega, hhigh⟩

theorem yearOfDay_eq {y n : Int} (h1 : daysBeforeYear y ≤ n)
    (h2 : n < daysBeforeYear (y + 1)) : yearOfDay n = y := by
  rcases yearOfDay_spec n with ⟨ha, hb⟩
  by_contra hne
  rcases lt_or_gt_of_ne hne with hlt | hgt
  · have := daysBeforeYear_mono (show yearOfDay n + 1 ≤ y by omega)
    omega
  · have := daysBeforeYear_mono (show y + 1 ≤ yearOfDay n by omega)
    omega

theorem yearOfDay_epoch : yearOfDay 0 = 1970 := by decide

theorem yearOfDay_sample : yearOfDay 20116 = 2025 := by decide

theorem weekday_epoch : weekday 0 = 4 := by decide

/-- A calendar date as held by a JS `Date` (UTC components). -/
structure CivDate where
  year : Int
  month : Nat
  day : Nat
deriving DecidableEq, Repr

/-- Month (1-based) and day-of-month from a 0-based day-of-year index. -/
def monthFromDoy (leap : Bool) (doy : Nat) : Nat × Nat :=
  if doy < daysBeforeMonth leap 2 then (1, doy + 1)
  else if doy < daysBeforeMonth leap 3 then (2, doy - daysBeforeMonth leap 2 + 1)
  else if doy < daysBeforeMonth leap 4 then (3, doy - daysBeforeMonth leap 3 + 1)
  else if doy < daysBeforeMonth leap 5 then (4, doy - daysBeforeMonth leap 4 + 1)
  else if doy < daysBeforeMonth leap 6 then (5, doy - daysBeforeMonth leap 5 + 1)
  else if doy < daysBeforeMonth leap 7 then (6, doy - daysBeforeMonth leap 6 + 1)
  else if doy < daysBeforeMonth leap 8 then (7, doy - daysBeforeMonth leap 7 + 1)
  else if doy < daysBeforeMonth leap 9 then (8, doy - daysBeforeMonth leap 8 + 1)
  else if doy < daysBeforeMonth leap 10 then (9, doy - daysBeforeMonth leap 9 + 1)
  else if doy < daysBeforeMonth leap 11 then (10, doy - daysBeforeMonth leap 10 + 1)
  else if doy < daysBeforeMonth leap 12 then (11, doy - daysBeforeMonth leap 11 + 1)
  else (12, doy - daysBeforeMonth leap 12 + 1)

/-- Calendar date of day number `n` (JS `getUTCFullYear`/`getUTCMonth`/`getUTCDate`). -/
def civilFromDays (n : Int) : CivDate :=
  let y := yearOfDay n
  let doy := (n - daysBeforeYear y).toNat
  let md := monthFromDoy (isLeap y) doy
  ⟨y, md.1, md.2⟩

set_option maxRecDepth 4000 in
theorem monthFromDoy_spec : ∀ (leap : Bool) (doy : Nat), doy < (if leap then 366 else 365) →
    1 ≤ (monthFromDoy leap doy).1 ∧ (monthFromDoy leap doy).1 ≤ 12 ∧
    1 ≤ (monthFromDoy leap doy).2 ∧
    (monthFromDoy leap doy).2 ≤ daysInMonthL leap (monthFromDoy leap doy).1 ∧
    daysBeforeMonth leap (monthFromDoy leap doy).1 + ((monthFromDoy leap doy).2 - 1) = doy := by
  decide

set_option maxRecDepth 4000 in
theorem monthFromDoy_inv : ∀ (leap : Bool), ∀ m < 13, ∀ d < 32,
    (1 ≤ m ∧ 1 ≤ d ∧ d ≤ daysInMonthL leap m) →
    monthFromDoy leap (daysBeforeMonth leap m + (d - 1)) = (m, d) := by
  decide

theorem daysInMonthL_le (leap : Bool) (m : Nat) : daysInMonthL leap m ≤ 31 := by
  simp only [daysInMonthL]
  split
  · split <;> omega
  · split <;> omega

theorem daysBeforeMonth_add_le : ∀ (leap : Bool) (m : Nat), 1 ≤ m → m ≤ 12 →
    daysBeforeMonth leap m + daysInMonthL leap m ≤ (if leap then 366 else 365) := by
  decide

theorem daysFromCivil_lb {y : Int} {m d : Nat} (h : validDate y m d = true) :
    daysBeforeYear y ≤ daysFromCivil y m d := by
  simp only [validDate, Bool.and_eq_true, decide_eq_true_eq] at h
  obtain ⟨⟨⟨h1, h2⟩, h3⟩, h4⟩ := h
  clear h4
  simp only [daysFromCivil]
  generalize daysBeforeMonth (isLeap y) m = B
  omega

theorem daysFromCivil_ub {y : Int} {m d : Nat} (h : validDate y m d = true) :
    daysFromCivil y m d < daysBeforeYear (y + 1) := by
  simp only [validDate, Bool.and_eq_true, decide_eq_true_eq] at h
  obtain ⟨⟨⟨h1, h2⟩, h3⟩, h4⟩ := h
  have hle := daysBeforeMonth_add_le (isLeap y) m h1 h2
  rw [daysBeforeYear_succ]
  simp only [daysFromCivil]
  by_cases hL : isLeap y = true
  · rw [if_pos hL] at hle ⊢
    revert h4 hle
    generalize daysBeforeMonth (isLeap y) m = B
    generalize daysInMonthL (isLeap y) m = C
    intro h4 hle
    omega
  · rw [if_neg hL] at hle ⊢
    revert h4 hle
    generalize daysBeforeMonth (isLeap y) m = B
    generalize daysInMonthL (isLeap y) m = C
    intro h4 hle
    omega

theorem yearOfDay_daysFromCivil {y : Int} {m d : Nat} (h : validDate y m d = true) :
    yearOfDay (daysFromCivil y m d) = y :=
  yearOfDay_eq (daysFromCivil_lb h) (daysFromCivil_ub h)

theorem civilFromDays_daysFromCivil {y : Int} {m d : Nat} (h : validDate y m d = true) :
    civilFromDays (daysFromCivil y m d) = ⟨y, m, d⟩ := by
  have hv := h
  simp only [validDate, Bool.and_eq_true, decide_eq_true_eq] at hv
  obtain ⟨⟨⟨h1, h2⟩, h3⟩, h4⟩ := hv
  simp only [civilFromDays, yearOfDay_daysFromCivil h]
  have hdoy : (daysFromCivil y m d - daysBeforeYear y).toNat
      = daysBeforeMonth (isLeap y) m + (d - 1) := by
    simp only [daysFromCivil]
    generalize daysBeforeMonth (isLeap y) m = B
    omega
  have hm13 : m < 13 := by omega
  have hd32 : d < 32 := by
    have := daysInMonthL_le (isLeap y) m
    omega
  rw [hdoy, monthFromDoy_inv (isLeap y) m hm13 d hd32 ⟨h1, h3, h4⟩]

/-! Decimal formatting of JS numbers. -/

/-- The decimal digit character for `k < 10`. -/
def digitChar (k : Nat) : Char := Char.ofNat (48 + k)

/-- `String(n).padStart(2, "0")` for `n < 100`. -/
def pad2 (n : Nat) : List Char := [digitChar (n / 10 % 10), digitChar (n % 10)]

/-- The four-digit zero-padded decimal form of `n < 10000` (`toISOString` year field). -/
def pad4 (n : Nat) : List Char :=
  [digitChar (n / 1000 % 10), digitChar (n / 100 % 10), digitChar (n / 10 % 10),
   digitChar (n % 10)]

/-- Unpadded decimal rendering of `n` (JS number-to-string), for `n < 10000`,
    which covers every number rendered by the scripts (years, months, days, week numbers). -/
def natDigits (n : Nat) : List Char :=
  if n < 10 then [digitChar n]
  else if n < 100 then [digitChar (n / 10), digitChar (n % 10)]
  else if n < 1000 then [digitChar (n / 100), digitChar (n / 10 % 10), digitChar (n % 10)]
  else pad4 n

/-- Decimal rendering of an integer (JS number-to-string), for `|i| < 10000`. -/
def intDigits (i : Int) : List Char :=
  if i < 0 then '-' :: natDigits i.natAbs else natDigits i.toNat

/-- Numeric value of a digit character. -/
def dval (c : Char) : Nat := c.toNat - 48

/-- Value of a decimal digit string (the model of `parseInt` on an all-digit string;
    on the empty string the scripts never rely on the result, modelled as 0). -/
def digitsVal (cs : List Char) : Nat := cs.foldl (fun a c => a * 10 + dval c) 0

theorem dval_digitChar : ∀ k, k < 10 → dval (digitChar k) = k := by decide

theorem isDigit_digitChar : ∀ k, k < 10 → (digitChar k).isDigit = true := by decide

theorem digitsVal_pad4 {n : Nat} (h : n < 10000) : digitsVal (pad4 n) = n := by
  simp only [digitsVal, pad4, List.foldl]
  rw [dval_digitChar _ (by omega), dval_digitChar _ (by omega),
    dval_digitChar _ (by omega), dval_digitChar _ (by omega)]
  omega

theorem digitsVal_pad2 {n : Nat} (h : n < 100) : digitsVal (pad2 n) = n := by
  simp only [digitsVal, pad2, List.foldl]
  rw [dval_digitChar _ (by omega), dval_digitChar _ (by omega)]
  omega

/-- The ISO `YYYY-MM-DD` rendering of a date (`toISOString().slice(0, 10)`),
    for years in `[0, 9999]`. -/
def isoDateLine (c : CivDate) : List Char :=
  pad4 c.year.toNat ++ '-' :: (pad2 c.month ++ '-' :: pad2 c.day)

/-- Model of `new Date(s)` on a date-only string: accepts exactly the documented
    `YYYY-MM-DD` format with in-range month and day (V8 rejects out-of-range
    components of ISO date strings); everything else is an invalid date. -/
def jsDateParse (s : List Char) : Option CivDate :=
  match s with
  | [a, b, c, d, '-', e, f, '-', g, h] =>
    if a.isDigit && b.isDigit && c.isDigit && d.isDigit && e.isDigit && f.isDigit &&
        g.isDigit && h.isDigit then
      let y : Int := (digitsVal [a, b, c, d] : Int)
      let mo := digitsVal [e, f]
      let dd := digitsVal [g, h]
      if validDate y mo dd then some ⟨y, mo, dd⟩ else none
    else none
  | _ => none

theorem jsDateParse_isoDateLine {y : Int} {m d : Nat} (hy0 : 0 ≤ y) (hy1 : y ≤ 9999)
    (h : validDate y m d = true) : jsDateParse (isoDateLine ⟨y, m, d⟩) = some ⟨y, m, d⟩ := by
  have hv := h
  simp only [validDate, Bool.and_eq_true, decide_eq_true_eq] at hv
  obtain ⟨⟨⟨h1, h2⟩, h3⟩, h4⟩ := hv
  have hm : m < 100 := by
    have := daysBeforeMonth_add_le (isLeap y) m h1 h2
    omega
  have hd : d < 100 := by
    have := daysInMonthL_le (isLeap y) m
    omega
  simp only [isoDateLine, pad4, pad2, List.cons_append, List.nil_append, jsDateParse]
  rw [isDigit_digitChar _ (by omega), isDigit_digitChar _ (by omega),
    isDigit_digitChar _ (by omega), isDigit_digitChar _ (by omega),
    isDigit_digitChar _ (by omega), isDigit_digitChar _ (by omega),
    isDigit_digitChar _ (by omega), isDigit_digitChar _ (by omega)]
  simp only [Bool.and_self, if_true]
  have e4 : digitsVal [digitChar (y.toNat / 1000 % 10), digitChar (y.toNat / 100 % 10),
      digitChar (y.toNat / 10 % 10), digitChar (y.toNat % 10)] = y.toNat := by
    have := @digitsVal_pad4 y.toNat (by omega)
    simpa [pad4] using this
  have e2m : digitsVal [digitChar (m / 10 % 10), digitChar (m % 10)] = m := by
    have := @digitsVal_pad2 m hm
    simpa [pad2] using this
  have e2d : digitsVal [digitChar (d / 10 % 10), digitChar (d % 10)] = d := by
    have := @digitsVal_pad2 d hd
    simpa [pad2] using this
  rw [e4, e2m, e2d]
  rw [show ((y.toNat : Int)) = y by omega]
  simp [h]

theorem daysFromCivil_jan1 (y : Int) : daysFromCivil y 1 1 = daysBeforeYear y := by
  simp [daysFromCivil, daysBeforeMonth]

theorem yearOfDay_ge {y n : Int} (h : daysBeforeYear y ≤ n) : y ≤ yearOfDay n := by
  by_contra hc
  have h2 := (yearOfDay_spec n).2
  have := daysBeforeYear_mono (show yearOfDay n + 1 ≤ y by omega)
  omega

theorem yearOfDay_ub {y n : Int} (h : n < daysBeforeYear (y + 1)) : yearOfDay n ≤ y := by
  by_contra hc
  have h1 := (yearOfDay_spec n).1
  have := daysBeforeYear_mono (show y + 1 ≤ yearOfDay n by omega)
  omega

theorem civilFromDays_valid (n : Int) :
    validDate (civilFromDays n).year (civilFromDays n).month (civilFromDays n).day = true := by
  obtain ⟨h1, h2⟩ := yearOfDay_spec n
  rw [daysBeforeYear_succ] at h2
  have hdoy : (n - daysBeforeYear (yearOfDay n)).toNat
      < (if isLeap (yearOfDay n) then 366 else 365) := by
    by_cases hL : isLeap (yearOfDay n) = true <;>
      [rw [if_pos hL] at h2 ⊢; rw [if_neg hL] at h2 ⊢] <;> omega
  have hs := monthFromDoy_spec (isLeap (yearOfDay n))
    ((n - daysBeforeYear (yearOfDay n)).toNat) hdoy
  obtain ⟨hm1, hm2, hd1, hd2, _⟩ := hs
  simp only [civilFromDays, validDate, Bool.and_eq_true, decide_eq_true_eq]
  exact ⟨⟨⟨hm1, hm2⟩, hd1⟩, hd2⟩

theorem daysFromCivil_civilFromDays (n : Int) :
    daysFromCivil (civilFromDays n).year (civilFromDays n).month (civilFromDays n).day = n := by
  obtain ⟨h1, h2⟩ := yearOfDay_spec n
  rw [daysBeforeYear_succ] at h2
  have hdoy : (n - daysBeforeYear (yearOfDay n)).toNat
      < (if isLeap (yearOfDay n) then 366 else 365) := by
    by_cases hL : isLeap (yearOfDay n) = true <;>
      [rw [if_pos hL] at h2 ⊢; rw [if_neg hL] at h2 ⊢] <;> omega
  have hs := monthFromDoy_spec (isLeap (yearOfDay n))
    ((n - daysBeforeYear (yearOfDay n)).toNat) hdoy
  obtain ⟨hm1, hm2, hd1, hd2, heq⟩ := hs
  simp only [civilFromDays, daysFromCivil]
  revert heq hd1
  generalize daysBeforeMonth (isLeap (yearOfDay n))
    (monthFromDoy (isLeap (yearOfDay n)) (n - daysBeforeYear (yearOfDay n)).toNat).1 = B
  generalize (monthFromDoy (isLeap (yearOfDay n)) (n - daysBeforeYear (yearOfDay n)).toNat).2 = D
  intro hd1 heq
  omega

/-! ### `get_week_info.cjs`: `getWeekNumber`, `getWeekRange` -/

/-- `getWeekNumber` of `get_week_info.cjs`, on the day number of the input date.
    The source sets `d` to the nearest Thursday (`d.getUTCDate() + 4 - dayNum`, with
    Sunday renumbered 7) and computes `Math.ceil(((d - yearStart) / 86400000 + 1) / 7)`;
    on exact midnight differences that ceiling is `(t - yearStart + 1 + 6) / 7` (floor). -/
def getWeekNumber (n : Int) : Int :=
  let dayNum : Int := if weekday n = 0 then 7 else weekday n
  let t := n + 4 - dayNum
  let yearStart := daysFromCivil (yearOfDay t) 1 1
  (t - yearStart + 1 + 6) / 7

/-- The Monday starting the (ISO, Monday-based) week that contains day `n`. -/
def mondayOnOrBefore (n : Int) : Int := n - (n + 3) % 7

/-- The first Thursday on or after January 1 of year `y`. -/
def firstThursdayOfYear (y : Int) : Int :=
  daysBeforeYear y + (4 - weekday (daysBeforeYear y) + 7) % 7

/-- The ISO-8601 week number, stated per the spec: weeks run Monday to Sunday, the
    week of a date is the week of that date's Thursday, and week 1 of a year is the
    week containing the year's first Thursday; the week number counts weeks from the
    week of the first Thursday of the year of this week's Thursday. -/
def isoWeekNumber (n : Int) : Int :=
  let thu := mondayOnOrBefore n + 3
  (mondayOnOrBefore n - mondayOnOrBefore (firstThursdayOfYear (yearOfDay thu))) / 7 + 1

theorem getWeekNumber_eq_iso (n : Int) : getWeekNumber n = isoWeekNumber n := by
  simp only [getWeekNumber, isoWeekNumber, mondayOnOrBefore, firstThursdayOfYear, weekday,
    daysFromCivil_jan1]
  have hT : (n + 4 - (if (n + 4) % 7 = 0 then 7 else (n + 4) % 7)) = n - (n + 3) % 7 + 3 := by
    split <;> omega
  rw [hT]
  have hs : daysBeforeYear (yearOfDay (n - (n + 3) % 7 + 3)) ≤ n - (n + 3) % 7 + 3 :=
    (yearOfDay_spec _).1
  generalize daysBeforeYear (yearOfDay (n - (n + 3) % 7 + 3)) = s at hs ⊢
  omega

/-- `getWeekRange` of `get_week_info.cjs` on the day number of the input date.
    The source mutates a copy with `d.setDate(d.getDate() - day + (day === 0 ? -6 : 1))`;
    `setDate(k)` on a UTC-midnight date yields day number `n - getDate() + k`, and
    `sunday` is `monday` with `setDate(monday.getDate() + 6)`, i.e. `monday + 6`.
    Results are `toISOString().slice(0, 10)` of the two days. -/
def getWeekRange (n : Int) : List Char × List Char :=
  let day := weekday n
  let dom : Int := (civilFromDays n).day
  let diff := dom - day + (if day = 0 then -6 else 1)
  let monday := n - dom + diff
  let sunday := monday + 6
  (isoDateLine (civilFromDays monday), isoDateLine (civilFromDays sunday))

/-- The week range per the spec's words: move the input date back to its Monday,
    treating Sunday as day 7 (not day 0), and forward six days for Sunday. -/
def specWeekRange (n : Int) : List Char × List Char :=
  let dayNum : Int := if weekday n = 0 then 7 else weekday n
  let monday := n - (dayNum - 1)
  (isoDateLine (civilFromDays monday), isoDateLine (civilFromDays (monday + 6)))

theorem getWeekRange_eq_spec (n : Int) : getWeekRange n = specWeekRange n := by
  simp only [getWeekRange, specWeekRange]
  have h1 : n - ((civilFromDays n).day : Int) +
      (((civilFromDays n).day : Int) - weekday n + (if weekday n = 0 then -6 else 1)) =
      n - ((if weekday n = 0 then (7 : Int) else weekday n) - 1) := by
    by_cases h : weekday n = 0 <;> simp only [if_pos, if_neg, h, if_true, if_false] <;> omega
  rw [h1]

theorem specMonday_eq_mondayOnOrBefore (n : Int) :
    n - ((if weekday n = 0 then (7 : Int) else weekday n) - 1) = mondayOnOrBefore n := by
  simp only [weekday, mondayOnOrBefore]
  split <;> omega

theorem weekday_mondayOnOrBefore (n : Int) : weekday (mondayOnOrBefore n) = 1 := by
  simp only [weekday, mondayOnOrBefore]
  omega

theorem jsDateParse_weekRange {y : Int} {m d : Nat} (hv : validDate y m d = true)
    (hy1 : 1 ≤ y) (hy2 : y ≤ 9998) :
    jsDateParse ((getWeekRange (daysFromCivil y m d)).1)
        = some (civilFromDays (mondayOnOrBefore (daysFromCivil y m d)))
    ∧ jsDateParse ((getWeekRange (daysFromCivil y m d)).2)
        = some (civilFromDays (mondayOnOrBefore (daysFromCivil y m d) + 6)) := by
  rw [getWeekRange_eq_spec]
  simp only [specWeekRange]
  rw [specMonday_eq_mondayOnOrBefore]
  have hlb := daysFromCivil_lb hv
  have hub := daysFromCivil_ub hv
  have hmon1 : mondayOnOrBefore (daysFromCivil y m d) ≤ daysFromCivil y m d := by
    simp only [mondayOnOrBefore]; omega
  have hmon2 : daysFromCivil y m d - 6 ≤ mondayOnOrBefore (daysFromCivil y m d) := by
    simp only [mondayOnOrBefore]; omega
  have hstep1 : daysBeforeYear (y - 1) + 365 ≤ daysBeforeYear y := by
    have h := daysBeforeYear_succ (y - 1)
    rw [show y - 1 + 1 = y from by ring] at h
    split at h <;> omega
  have hstep2 : daysBeforeYear (y + 1) + 365 ≤ daysBeforeYear (y + 1 + 1) := by
    have := daysBeforeYear_succ (y + 1)
    split at this <;> omega
  constructor
  · have hylo : y - 1 ≤ yearOfDay (mondayOnOrBefore (daysFromCivil y m d)) :=
      yearOfDay_ge (by omega)
    have hyhi : yearOfDay (mondayOnOrBefore (daysFromCivil y m d)) ≤ y :=
      yearOfDay_ub (by omega)
    have := @jsDateParse_isoDateLine
      (civilFromDays (mondayOnOrBefore (daysFromCivil y m d))).year
      (civilFromDays (mondayOnOrBefore (daysFromCivil y m d))).month
      (civilFromDays (mondayOnOrBefore (daysFromCivil y m d))).day
      (by simp only [civilFromDays]; omega) (by simp only [civilFromDays]; omega)
      (civilFromDays_valid _)
    exact this
  · have hylo : y - 1 ≤ yearOfDay (mondayOnOrBefore (daysFromCivil y m d) + 6) :=
      yearOfDay_ge (by omega)
    have hyhi : yearOfDay (mondayOnOrBefore (daysFromCivil y m d) + 6) ≤ y + 1 :=
      yearOfDay_ub (by omega)
    have := @jsDateParse_isoDateLine
      (civilFromDays (mondayOnOrBefore (daysFromCivil y m d) + 6)).year
      (civilFromDays (mondayOnOrBefore (daysFromCivil y m d) + 6)).month
      (civilFromDays (mondayOnOrBefore (daysFromCivil y m d) + 6)).day
      (by simp only [civilFromDays]; omega) (by simp only [civilFromDays]; omega)
      (civilFromDays_valid _)
    exact this

/-- Claim C4: for every valid calendar date, `getWeekNumber` of `get_week_info.cjs`
    returns the ISO-8601 week number (weeks start Monday; week 1 is the week that
    contains the year's first Thursday), including the boundary cases: Dec 31 can
    belong to week 1 of the next year (2024-12-31 is in week 1, ISO year 2025) and
    Jan 1 can belong to the last week of the previous year (2021-01-01 is in week 53,
    ISO year 2020). -/
theorem c4_week_number_iso :
    (∀ (y : Int) (m d : Nat), validDate y m d = true →
      getWeekNumber (daysFromCivil y m d) = isoWeekNumber (daysFromCivil y m d))
    ∧ getWeekNumber (daysFromCivil 2024 12 31) = 1
    ∧ yearOfDay (mondayOnOrBefore (daysFromCivil 2024 12 31) + 3) = 2025
    ∧ getWeekNumber (daysFromCivil 2021 1 1) = 53
    ∧ yearOfDay (mondayOnOrBefore (daysFromCivil 2021 1 1) + 3) = 2020 :=
  ⟨fun _ _ _ _ => getWeekNumber_eq_iso _, by decide, by decide, by decide, by decide⟩

/-- Witness for C4 at the spec's example date 2026-01-28 (ISO week 5). -/
theorem c4_week_number_iso_witness :
    getWeekNumber (daysFromCivil 2026 1 28) = isoWeekNumber (daysFromCivil 2026 1 28) :=
  c4_week_number_iso.1 2026 1 28 (by decide)

/-- Claim C8: for every valid input date, `getWeekRange` returns the Monday and the
    Sunday of the (Monday-based) week containing that date, in `YYYY-MM-DD` form:
    the Monday is obtained by moving the date back treating Sunday as day 7 rather
    than day 0, and the Sunday is that Monday plus six days. -/
theorem c8_week_range :
    (∀ n : Int, getWeekRange n = specWeekRange n
      ∧ mondayOnOrBefore n ≤ n ∧ n ≤ mondayOnOrBefore n + 6
      ∧ weekday (mondayOnOrBefore n) = 1
      ∧ n - ((if weekday n = 0 then (7 : Int) else weekday n) - 1) = mondayOnOrBefore n)
    ∧ (∀ (y : Int) (m d : Nat), validDate y m d = true → 1 ≤ y → y ≤ 9998 →
      jsDateParse ((getWeekRange (daysFromCivil y m d)).1)
          = some (civilFromDays (mondayOnOrBefore (daysFromCivil y m d)))
      ∧ jsDateParse ((getWeekRange (daysFromCivil y m d)).2)
          = some (civilFromDays (mondayOnOrBefore (daysFromCivil y m d) + 6))) := by
  constructor
  · intro n
    refine ⟨getWeekRange_eq_spec n, ?_, ?_, weekday_mondayOnOrBefore n,
      specMonday_eq_mondayOnOrBefore n⟩
    · simp only [mondayOnOrBefore]; omega
    · simp only [mondayOnOrBefore]; omega
  · intro y m d hv h1 h2
    exact jsDateParse_weekRange hv h1 h2

/-- Witness for C8 at 2026-01-28: the range is Monday 2026-01-26 .. Sunday 2026-02-01. -/
theorem c8_week_range_witness :
    jsDateParse ((getWeekRange (daysFromCivil 2026 1 28)).1)
        = some (civilFromDays (mondayOnOrBefore (daysFromCivil 2026 1 28)))
    ∧ getWeekRange (daysFromCivil 2026 1 28) = specWeekRange (daysFromCivil 2026 1 28) :=
  ⟨(c8_week_range.2 2026 1 28 (by decide) (by decide) (by decide)).1,
    (c8_week_range.1 (daysFromCivil 2026 1 28)).1⟩

/-! ### The worklog document model (`log_work.cjs`) -/

/-- A line of text; the scripts split file contents on newline characters. -/
abbrev Line := List Char

/-- A task entry: `- TRACKING-ID: summary` plus the lines captured below it. -/
structure TaskE where
  trackingId : Line
  summary : Line
  content : List Line
deriving DecidableEq, Repr

/-- A day section: `### YYYY/MM/DD` header, content lines, task entries. -/
structure DayS where
  header : Line
  date : Line
  content : List Line
  tasks : List TaskE
deriving DecidableEq, Repr

/-- A week section: `## Week N` header, content lines, day sections. -/
structure WeekS where
  header : Line
  weekNumber : Int
  content : List Line
  days : List DayS
deriving DecidableEq, Repr

/-- A top-level section: a header block of raw lines, or a week section. -/
inductive Sect where
  | header (lines : List Line)
  | week (w : WeekS)
deriving DecidableEq, Repr

/-- The week-header test `/^## Week \d+/`. -/
def isWeekHeader : Line → Bool
  | '#' :: '#' :: ' ' :: 'W' :: 'e' :: 'e' :: 'k' :: ' ' :: c :: _ => c.isDigit
  | _ => false

/-- `parseInt(line.match(/\d+/)[0])` on a line matching the week-header pattern:
    the first digit run of such a line starts at index 8. -/
def weekNumberOf (l : Line) : Int :=
  (digitsVal ((l.drop 8).takeWhile Char.isDigit) : Int)

/-- The day-header test `/^### \d{4}\/\d{2}\/\d{2}/`. -/
def isDayHeader : Line → Bool
  | '#' :: '#' :: '#' :: ' ' :: y1 :: y2 :: y3 :: y4 :: '/' :: m1 :: m2 :: '/' :: d1 :: d2 :: _ =>
    y1.isDigit && y2.isDigit && y3.isDigit && y4.isDigit && m1.isDigit && m2.isDigit &&
      d1.isDigit && d2.isDigit
  | _ => false

/-- `line.replace('### ', '')` on a line that starts with `### ` (the first
    occurrence of the replaced substring is at index 0). -/
def dayDateOf (l : Line) : Line := l.drop 4

/-- After `[A-Z]+-\d+` the first task regex requires a colon. -/
def isTaskAfterDigits : Line → Bool
  | ':' :: _ => true
  | _ => false

/-- After `- [A-Z]+` the first task regex requires `-` then digits then `:`. -/
def isTaskAfterUppers : Line → Bool
  | '-' :: r2 =>
    decide (r2.takeWhile Char.isDigit ≠ []) && isTaskAfterDigits (r2.dropWhile Char.isDigit)
  | _ => false

/-- The task-line test `/^- [A-Z]+-\d+:/` (greedy character classes need no
    backtracking here: each class is followed by a character outside it). -/
def isTaskLine (l : Line) : Bool :=
  match l with
  | '-' :: ' ' :: rest =>
    decide (rest.takeWhile Char.isUpper ≠ []) && isTaskAfterUppers (rest.dropWhile Char.isUpper)
  | _ => false

/-- The capture regex `/^- ([A-Z]+-\d+): (.+)$/`: tracking id and summary, or `none`
    when it does not match (in JS `.` does not match a newline and `$` anchors at the
    very end, so a match needs a nonempty newline-free summary after `": "`). -/
def capAfterDigits (us ds : Line) : Line → Option (Line × Line)
  | ':' :: ' ' :: s => if s ≠ [] ∧ '\n' ∉ s then some (us ++ '-' :: ds, s) else none
  | _ => none

def capAfterUppers (us : Line) : Line → Option (Line × Line)
  | '-' :: r2 =>
    if r2.takeWhile Char.isDigit = [] then none
    else capAfterDigits us (r2.takeWhile Char.isDigit) (r2.dropWhile Char.isDigit)
  | _ => none

def taskCapture (l : Line) : Option (Line × Line) :=
  match l with
  | '-' :: ' ' :: rest =>
    if rest.takeWhile Char.isUpper = [] then none
    else capAfterUppers (rest.takeWhile Char.isUpper) (rest.dropWhile Char.isUpper)
  | _ => none

/-- Parser state of `parseWorklog`: emitted sections, the open week/day/task
    (at most one of each), and the pending buffer of unmatched lines. -/
structure PState where
  sections : List Sect
  currentWeek : Option WeekS
  currentDay : Option DayS
  currentTask : Option TaskE
  buffer : List Line
deriving DecidableEq, Repr

def initPState : PState := ⟨[], none, none, none, []⟩

/-- `flushBuffer`: append the pending lines to the innermost open node
    (task, else day, else week, else push a new header block). -/
def flushB (st : PState) : PState :=
  if st.buffer = [] then st
  else
    match st.currentTask with
    | some t =>
      { st with currentTask := some { t with content := t.content ++ st.buffer }, buffer := [] }
    | none =>
      match st.currentDay with
      | some d =>
        { st with currentDay := some { d with content := d.content ++ st.buffer }, buffer := [] }
      | none =>
        match st.currentWeek with
        | some w =>
          { st with
            currentWeek := some { w with content := w.content ++ st.buffer }
            buffer := [] }
        | none => { st with sections := st.sections ++ [Sect.header st.buffer], buffer := [] }

/-- One iteration of the `parseWorklog` line loop.  `none` models a thrown
    `TypeError`: a second day header while no week is open (`currentWeek.days` of
    `null`), or a line passing the first task regex whose capture regex fails
    (`match[1]` of `null`).  Note the week branch pushes the open week *without*
    first closing the open day into it, and the day branch pushes the open day
    without first closing the open task: those open nodes are silently dropped. -/
def parseLine (st : PState) (l : Line) : Option PState :=
  if isWeekHeader l then
    let st' := flushB st
    some { sections := st'.sections ++ (match st'.currentWeek with
             | some w => [Sect.week w]
             | none => []),
           currentWeek := some ⟨l, weekNumberOf l, [], []⟩,
           currentDay := none, currentTask := none, buffer := [] }
  else if isDayHeader l then
    let st' := flushB st
    match st'.currentDay with
    | some d =>
      match st'.currentWeek with
      | some w =>
        some { st' with
               currentWeek := some { w with days := w.days ++ [d] }
               currentDay := some ⟨l, dayDateOf l, [], []⟩
               currentTask := none }
      | none => none
    | none => some { st' with currentDay := some ⟨l, dayDateOf l, [], []⟩, currentTask := none }
  else if st.currentDay.isSome && isTaskLine l then
    let st' := flushB st
    let st'' := match st'.currentTask, st'.currentDay with
      | some t, some d =>
        { st' with currentDay := some { d with tasks := d.tasks ++ [t] }, currentTask := none }
      | _, _ => st'
    match taskCapture l with
    | some (tid, sum) => some { st'' with currentTask := some ⟨tid, sum, []⟩ }
    | none => none
  else
    some { st with buffer := st.buffer ++ [l] }

/-- End-of-input: flush, then close task into day, day into week, week into the
    section list.  `none` models the `TypeError` of closing into a `null` parent. -/
def finishParse (st : PState) : Option (List Sect) :=
  let st' := flushB st
  let dayWeek : Option (Option DayS × Option WeekS) :=
    match st'.currentTask with
    | none => some (st'.currentDay, st'.currentWeek)
    | some t =>
      match st'.currentDay with
      | none => none
      | some d => some (some { d with tasks := d.tasks ++ [t] }, st'.currentWeek)
  match dayWeek with
  | none => none
  | some (cd, cw) =>
    match cd with
    | none =>
      match cw with
      | none => some st'.sections
      | some w => some (st'.sections ++ [Sect.week w])
    | some d =>
      match cw with
      | none => none
      | some w => some (st'.sections ++ [Sect.week { w with days := w.days ++ [d] }])

/-- The `parseWorklog` line loop. -/
def runParse (st : PState) : List Line → Option PState
  | [] => some st
  | l :: ls => (parseLine st l).bind (fun st' => runParse st' ls)

/-- `parseWorklog` of `log_work.cjs`, taking the lines of `content.split('\n')`. -/
def parseWorklog (ls : List Line) : Option (List Sect) :=
  match runParse initPState ls with
  | none => none
  | some st => finishParse st

/-- The rendered task block of the rebuild step of `logWork`: a separator blank
    line, `- trackingId: summary`, then the task's content lines. -/
def renderTask (t : TaskE) : List Line :=
  [[]] ++ ['-' :: ' ' :: (t.trackingId ++ ':' :: ' ' :: t.summary)] ++ t.content

/-- The rendered day block: blank line, day header, content lines when nonempty,
    then the task blocks. -/
def renderDay (d : DayS) : List Line :=
  [[]] ++ [d.header] ++ (if d.content.length > 0 then d.content else []) ++
    (d.tasks.map renderTask).flatten

/-- The rendered week block: blank line, week header, content lines, day blocks. -/
def renderWeek (w : WeekS) : List Line :=
  [[]] ++ [w.header] ++ w.content ++ (w.days.map renderDay).flatten

def headerLinesOf : Sect → List Line
  | Sect.header ls => ls
  | Sect.week _ => []

def weekOf : Sect → Option WeekS
  | Sect.week w => some w
  | Sect.header _ => none

/-- All week sections of a document, in order. -/
def weeksOf (ss : List Sect) : List WeekS := ss.filterMap weekOf

/-- The rebuild step of `logWork`: the lines of every header section (in order),
    then every week section rendered (in order). -/
def renderSections (ss : List Sect) : List Line :=
  (ss.map headerLinesOf).flatten ++ ((weeksOf ss).map renderWeek).flatten

/-- The written file as lines: `output.join('\n') + '\n'` ends the file with a
    newline, i.e. one trailing empty line. -/
def writtenLines (ss : List Sect) : List Line := renderSections ss ++ [[]]

/-- Stable insertion: `x` goes before the first `y` with `le x y`. -/
def insertBy {α : Type} (le : α → α → Bool) (x : α) : List α → List α
  | [] => [x]
  | y :: l => if le x y then x :: y :: l else y :: insertBy le x l

/-- Stable insertion sort, the model of `Array.prototype.sort` (which ECMAScript
    requires to be stable; with an inconsistent comparator the result is
    implementation-defined, and every theorem below only relies on this model on
    inputs where all stable sorts agree).  `le x y` stands for `comparator(x,y) ≤ 0`. -/
def sortBy {α : Type} (le : α → α → Bool) : List α → List α
  | [] => []
  | x :: l => insertBy le x (sortBy le l)

/-- The week-sort comparator of `logWork`:
    `(a, b) => (a.type !== 'week' || b.type !== 'week') ? 0 : b.weekNumber - a.weekNumber`,
    as the order `comparator ≤ 0`. -/
def sectLe (a b : Sect) : Bool :=
  match a, b with
  | Sect.week wa, Sect.week wb => decide (wb.weekNumber - wa.weekNumber ≤ 0)
  | _, _ => true

/-- `compareDates` of `log_work.cjs`: difference of `new Date(s.replace(/\//g,'-'))`
    values, descending.  A date string that does not parse is `NaN`, for which the
    ECMAScript sort order is implementation-defined; the model assigns it value 0 and
    no theorem relies on the relative order of unparseable dates. -/
def dateValue (s : Line) : Int :=
  match jsDateParse (s.map (fun c => if c = '/' then '-' else c)) with
  | some cd => daysFromCivil cd.year cd.month cd.day
  | none => 0

/-- The day-sort order (`compareDates` descending, as `comparator ≤ 0`). -/
def dayLe (a b : DayS) : Bool := decide (dateValue b.date - dateValue a.date ≤ 0)

/-- `sections.find(s => s.type === 'week' && s.weekNumber === n)`. -/
def findWeekS (ss : List Sect) (n : Int) : Option WeekS :=
  (weeksOf ss).find? (fun w => w.weekNumber == n)

/-- JS mutates the week object found in the array; functionally: replace the first
    week section with week number `n`. -/
def replaceFirstWeek (ss : List Sect) (n : Int) (w' : WeekS) : List Sect :=
  match ss with
  | [] => []
  | Sect.header h :: rest => Sect.header h :: replaceFirstWeek rest n w'
  | Sect.week w :: rest =>
    if w.weekNumber == n then Sect.week w' :: rest
    else Sect.week w :: replaceFirstWeek rest n w'

/-- `weekSection.days.find(d => d.date === dailyHeader)`. -/
def findDayS (days : List DayS) (date : Line) : Option DayS :=
  days.find? (fun d => d.date == date)

def replaceFirstDay (days : List DayS) (date : Line) (d' : DayS) : List DayS :=
  match days with
  | [] => []
  | d :: rest => if d.date == date then d' :: rest else d :: replaceFirstDay rest date d'

/-- `daySection.tasks.find(t => t.trackingId === trackingId)`. -/
def findTaskT (ts : List TaskE) (tid : Line) : Option TaskE :=
  ts.find? (fun t => t.trackingId == tid)

def replaceFirstTask (ts : List TaskE) (tid : Line) (t' : TaskE) : List TaskE :=
  match ts with
  | [] => []
  | t :: rest => if t.trackingId == tid then t' :: rest else t :: replaceFirstTask rest tid t'

/-- The rendered work-item line `'  - ' + workItem`. -/
def workLine (it : Line) : Line := ' ' :: ' ' :: '-' :: ' ' :: it

/-- The work-item loop of `logWork`: append `'  - ' + item` to the task's content
    unless that exact line is already one of its content lines. -/
def addWorkItems (content : List Line) (items : List Line) : List Line :=
  items.foldl (fun c it => if workLine it ∈ c then c else c ++ [workLine it]) content

def lastWeekLine : Line := "Last week:".data

def thisWeekLine : Line := "This week:".data

/-- The merge step of `logWork`: find-or-create the week, day and task, then run the
    work-item loop.  JS mutates the found objects inside the arrays; the functional
    translation builds the final node and replaces the first matching week/day/task.
    When a node is created it is pushed and its list sorted immediately; the sort
    consults only week numbers / dates, which the later mutation never changes, so
    sorting the list with the fully updated node inserted is the same list. -/
def updateSections (ss : List Sect) (wn : Int) (weekHeaderLine dh tid sum : Line)
    (items : List Line) : List Sect :=
  let found := findWeekS ss wn
  let w1 : WeekS := match found with
    | some w => w
    | none => ⟨weekHeaderLine, wn, [[], lastWeekLine, [], thisWeekLine, []], []⟩
  let ss1 : List Sect := match found with
    | some _ => ss
    | none => sortBy sectLe (ss ++ [Sect.week w1])
  let dfound := findDayS w1.days dh
  let d1 : DayS := match dfound with
    | some d => d
    | none => ⟨'#' :: '#' :: '#' :: ' ' :: dh, dh, [], []⟩
  let days1 : List DayS := match dfound with
    | some _ => w1.days
    | none => sortBy dayLe (w1.days ++ [d1])
  let tfound := findTaskT d1.tasks tid
  let t1 : TaskE := match tfound with
    | some t => { t with summary := sum }
    | none => ⟨tid, sum, []⟩
  let t2 : TaskE := { t1 with content := addWorkItems t1.content items }
  let tasks2 : List TaskE := match tfound with
    | some _ => replaceFirstTask d1.tasks tid t2
    | none => d1.tasks ++ [t2]
  let days2 : List DayS := replaceFirstDay days1 dh { d1 with tasks := tasks2 }
  replaceFirstWeek ss1 wn { w1 with days := days2 }

/-- File-system operations performed by `logWork`, in order. -/
inductive FSOp where
  | mkdirLogs
  | readFile (month : Line)
  | writeFile (month : Line) (contents : List Line)
deriving DecidableEq, Repr

inductive LogError where
  | missingFields
  | invalidDate
  | parseFailure
deriving DecidableEq, Repr

/-- The success payload of `logWork`.  The model also exposes the written lines and
    the merged document, which in JS are observable only through the written file. -/
structure LogResult where
  month : Line
  dateStr : Line
  dailyHeader : Line
  written : List Line
  sections : List Sect
deriving DecidableEq, Repr

/-- The synthesized contents of a missing worklog file:
    `# ${month.replace('-', '/')} Contribution log\n` — the `YYYY-MM` month key with
    its (first and only) hyphen replaced by a slash.  As lines: the title line plus
    one trailing empty line. -/
def newFileLines (cd : CivDate) : List Line :=
  ['#' :: ' ' :: (intDigits cd.year ++ '/' :: (pad2 cd.month ++ " Contribution log".data)),
   []]

/-- `formatDateHeader` of `log_work.cjs`: `${year}/${MM}/${DD}` (year unpadded). -/
def formatDateHeader (cd : CivDate) : Line :=
  intDigits cd.year ++ '/' :: (pad2 cd.month ++ '/' :: pad2 cd.day)

/-- `weekInfo.month`: `${year}-${MM}`. -/
def monthKey (cd : CivDate) : Line := intDigits cd.year ++ '-' :: pad2 cd.month

/-- The week-header line `## ${weekInfo.weekHeader}` with `weekHeader = Week ${n}`. -/
def weekHeaderLineOf (wn : Int) : Line :=
  '#' :: '#' :: ' ' :: 'W' :: 'e' :: 'e' :: 'k' :: ' ' :: intDigits wn

/-- `logWork` of `log_work.cjs`.  `trackingId`/`summary` empty model both a missing
    and an empty CLI option (`!x` holds for both); `dateArg` is the `--date` option;
    `today` is the current date (`new Date()`); `dirExists` says whether the logs
    directory exists; `existing` is the contents (as lines) of the target month file
    when that file exists.  Returns the file operations performed, in order, and the
    outcome.  The post-write prettier step is an external collaborator, not modelled. -/
def logWork (trackingId summary : Line) (workItems : List Line) (dateArg : Option Line)
    (today : CivDate) (dirExists : Bool) (existing : Option (List Line)) :
    List FSOp × Except LogError LogResult :=
  if trackingId = [] ∨ summary = [] ∨ workItems = [] then
    ([], Except.error LogError.missingFields)
  else
    let dateStr := match dateArg with
      | some s => if s = [] then isoDateLine today else s
      | none => isoDateLine today
    match jsDateParse dateStr with
    | none => ([], Except.error LogError.invalidDate)
    | some cd =>
      let wn := getWeekNumber (daysFromCivil cd.year cd.month cd.day)
      let mk := monthKey cd
      let dh := formatDateHeader cd
      let ops0 : List FSOp := if dirExists then [] else [FSOp.mkdirLogs]
      let ops1 : List FSOp := ops0 ++ (match existing with
        | some _ => [FSOp.readFile mk]
        | none => [])
      let content : List Line := match existing with
        | some c => c
        | none => newFileLines cd
      match parseWorklog content with
      | none => (ops1, Except.error LogError.parseFailure)
      | some ss =>
        let ss' := updateSections ss wn (weekHeaderLineOf wn) dh trackingId summary workItems
        let out := writtenLines ss'
        (ops1 ++ [FSOp.writeFile mk out], Except.ok ⟨mk, dateStr, dh, out, ss'⟩)

/-! ### Digit-string lemmas -/

theorem natDigits_all_digit (n : Nat) : (natDigits n).all Char.isDigit = true := by
  unfold natDigits
  split <;> rename_i h1
  · simp [List.all, isDigit_digitChar n (by omega)]
  · split <;> rename_i h2
    · simp [List.all, isDigit_digitChar (n / 10) (by omega),
        isDigit_digitChar (n % 10) (by omega)]
    · split <;> rename_i h3
      · simp [List.all, isDigit_digitChar (n / 100) (by omega),
          isDigit_digitChar (n / 10 % 10) (by omega), isDigit_digitChar (n % 10) (by omega)]
      · simp [pad4, List.all, isDigit_digitChar (n / 1000 % 10) (by omega),
          isDigit_digitChar (n / 100 % 10) (by omega),
          isDigit_digitChar (n / 10 % 10) (by omega), isDigit_digitChar (n % 10) (by omega)]

theorem natDigits_ne_nil (n : Nat) : natDigits n ≠ [] := by
  unfold natDigits
  split
  · simp
  · split
    · simp
    · split
      · simp
      · simp [pad4]

theorem digitsVal_natDigits {n : Nat} (h : n < 10000) : digitsVal (natDigits n) = n := by
  unfold natDigits
  split <;> rename_i h1
  · simp only [digitsVal, List.foldl, dval_digitChar n (by omega)]
    omega
  · split <;> rename_i h2
    · simp only [digitsVal, List.foldl, dval_digitChar (n / 10) (by omega),
        dval_digitChar (n % 10) (by omega)]
      omega
    · split <;> rename_i h3
      · simp only [digitsVal, List.foldl, dval_digitChar (n / 100) (by omega),
          dval_digitChar (n / 10 % 10) (by omega), dval_digitChar (n % 10) (by omega)]
        omega
      · exact digitsVal_pad4 h

theorem takeWhile_all_eq {p : Char → Bool} {l : Line} (h : l.all p = true) :
    l.takeWhile p = l := by
  induction l with
  | nil => rfl
  | cons c cs ih =>
    simp only [List.all_cons, Bool.and_eq_true] at h
    simp [List.takeWhile, h.1, ih h.2]

theorem weekNumberOf_weekHeaderLineOf {wn : Int} (h0 : 0 ≤ wn) (h1 : wn < 10000) :
    weekNumberOf (weekHeaderLineOf wn) = wn := by
  have hnn : ¬ (wn < 0) := by omega
  simp only [weekNumberOf, weekHeaderLineOf, intDigits, if_neg hnn, List.drop]
  rw [takeWhile_all_eq (natDigits_all_digit wn.toNat), digitsVal_natDigits (by omega)]
  omega

theorem isWeekHeader_weekHeaderLineOf {wn : Int} (h0 : 0 ≤ wn) :
    isWeekHeader (weekHeaderLineOf wn) = true := by
  have hnn : ¬ (wn < 0) := by omega
  simp only [weekHeaderLineOf, intDigits, if_neg hnn]
  obtain ⟨c, cs, hc⟩ : ∃ c cs, natDigits wn.toNat = c :: cs := by
    rcases hn : natDigits wn.toNat with _ | ⟨c, cs⟩
    · exact absurd hn (natDigits_ne_nil _)
    · exact ⟨c, cs, rfl⟩
  rw [hc]
  have hall := natDigits_all_digit wn.toNat
  rw [hc] at hall
  simp only [List.all_cons, Bool.and_eq_true] at hall
  simpa [isWeekHeader] using hall.1

/-! ### Classifying the concrete line shapes arising from rendering -/

theorem isWeekHeader_title (r : Line) : isWeekHeader ('#' :: ' ' :: r) = false := rfl

theorem isDayHeader_title (r : Line) : isDayHeader ('#' :: ' ' :: r) = false := rfl

theorem isTaskLine_title (r : Line) : isTaskLine ('#' :: ' ' :: r) = false := rfl

theorem isWeekHeader_nil : isWeekHeader [] = false := rfl

theorem isDayHeader_nil : isDayHeader [] = false := rfl

theorem isTaskLine_nil : isTaskLine [] = false := rfl

theorem isWeekHeader_work (r : Line) : isWeekHeader (' ' :: r) = false := rfl

theorem isDayHeader_work (r : Line) : isDayHeader (' ' :: r) = false := rfl

theorem isTaskLine_work (r : Line) : isTaskLine (' ' :: r) = false := rfl

theorem isWeekHeader_task (r : Line) : isWeekHeader ('-' :: r) = false := rfl

theorem isDayHeader_task (r : Line) : isDayHeader ('-' :: r) = false := rfl

theorem isWeekHeader_lastWeek : isWeekHeader lastWeekLine = false := rfl

theorem isDayHeader_lastWeek : isDayHeader lastWeekLine = false := rfl

theorem isTaskLine_lastWeek : isTaskLine lastWeekLine = false := rfl

theorem isWeekHeader_thisWeek : isWeekHeader thisWeekLine = false := rfl

theorem isDayHeader_thisWeek : isDayHeader thisWeekLine = false := rfl

theorem isTaskLine_thisWeek : isTaskLine thisWeekLine = false := rfl

theorem isWeekHeader_day (r : Line) : isWeekHeader ('#' :: '#' :: '#' :: ' ' :: r) = false := rfl

theorem isTaskLine_dayPre (r : Line) : isTaskLine ('#' :: r) = false := rfl

theorem formatDateHeader_4digit {cd : CivDate} (h1 : 1000 ≤ cd.year) (h2 : cd.year ≤ 9999) :
    formatDateHeader cd = pad4 cd.year.toNat ++ '/' :: (pad2 cd.month ++ '/' :: pad2 cd.day) := by
  simp only [formatDateHeader, intDigits, if_neg (by omega : ¬ cd.year < 0), natDigits]
  rw [if_neg (by omega), if_neg (by omega), if_neg (by omega)]

theorem isDayHeader_dayLine {cd : CivDate} (h1 : 1000 ≤ cd.year) (h2 : cd.year ≤ 9999) :
    isDayHeader ('#' :: '#' :: '#' :: ' ' :: formatDateHeader cd) = true := by
  rw [formatDateHeader_4digit h1 h2]
  simp only [pad4, pad2, List.cons_append, List.nil_append, isDayHeader]
  simp [isDigit_digitChar _ (Nat.mod_lt _ (by omega)),
    isDigit_digitChar (cd.year.toNat / 1000 % 10) (by omega),
    isDigit_digitChar (cd.year.toNat / 100 % 10) (by omega),
    isDigit_digitChar (cd.year.toNat / 10 % 10) (by omega),
    isDigit_digitChar (cd.year.toNat % 10) (by omega),
    isDigit_digitChar (cd.month / 10 % 10) (by omega),
    isDigit_digitChar (cd.month % 10) (by omega),
    isDigit_digitChar (cd.day / 10 % 10) (by omega),
    isDigit_digitChar (cd.day % 10) (by omega)]

theorem takeWhile_append_stop {p : Char → Bool} {l : Line} (hall : l.all p = true) {c : Char}
    (hc : p c = false) (r : Line) : ((l ++ c :: r).takeWhile p) = l := by
  induction l with
  | nil => simp [List.takeWhile, hc]
  | cons x xs ih =>
    simp only [List.all_cons, Bool.and_eq_true] at hall
    simp [List.takeWhile, hall.1, ih hall.2]

theorem dropWhile_append_stop {p : Char → Bool} {l : Line} (hall : l.all p = true) {c : Char}
    (hc : p c = false) (r : Line) : ((l ++ c :: r).dropWhile p) = c :: r := by
  induction l with
  | nil => simp [List.dropWhile, hc]
  | cons x xs ih =>
    simp only [List.all_cons, Bool.and_eq_true] at hall
    simp [List.dropWhile, hall.1, ih hall.2]

theorem taskCapture_render {us ds sum : Line} (hus : us ≠ []) (husU : us.all Char.isUpper = true)
    (hds : ds ≠ []) (hdsD : ds.all Char.isDigit = true) (hsum : sum ≠ []) (hnl : '\n' ∉ sum) :
    taskCapture ('-' :: ' ' :: ((us ++ '-' :: ds) ++ ':' :: ' ' :: sum))
      = some (us ++ '-' :: ds, sum) := by
  have hasc : (us ++ '-' :: ds) ++ ':' :: ' ' :: sum = us ++ '-' :: (ds ++ ':' :: ' ' :: sum) := by
    simp [List.append_assoc]
  rw [hasc]
  simp only [taskCapture]
  rw [takeWhile_append_stop husU (by rfl) _, dropWhile_append_stop husU (by rfl) _]
  simp only [if_neg hus, capAfterUppers]
  rw [takeWhile_append_stop hdsD (by rfl) _, dropWhile_append_stop hdsD (by rfl) _]
  simp only [if_neg hds, capAfterDigits]
  simp [hsum, hnl]

theorem isTaskLine_render {us ds sum : Line} (hus : us ≠ []) (husU : us.all Char.isUpper = true)
    (hds : ds ≠ []) (hdsD : ds.all Char.isDigit = true) :
    isTaskLine ('-' :: ' ' :: ((us ++ '-' :: ds) ++ ':' :: ' ' :: sum)) = true := by
  have hasc : (us ++ '-' :: ds) ++ ':' :: ' ' :: sum = us ++ '-' :: (ds ++ ':' :: ' ' :: sum) := by
    simp [List.append_assoc]
  rw [hasc]
  simp only [isTaskLine]
  rw [takeWhile_append_stop husU (by rfl) _, dropWhile_append_stop husU (by rfl) _]
  simp only [isTaskAfterUppers]
  rw [takeWhile_append_stop hdsD (by rfl) _, dropWhile_append_stop hdsD (by rfl) _]
  simp only [isTaskAfterDigits]
  simp [hus, hds]

/-! ### Generic facts about the parse loop -/

theorem flushB_nilbuf {st : PState} (h : st.buffer = []) : flushB st = st := by
  simp [flushB, h]

theorem parseLine_plain {st : PState} {l : Line} (hw : isWeekHeader l = false)
    (hd : isDayHeader l = false)
    (ht : st.currentDay.isSome = false ∨ isTaskLine l = false) :
    parseLine st l = some { st with buffer := st.buffer ++ [l] } := by
  simp only [parseLine, hw, hd, Bool.false_eq_true, if_false]
  rcases ht with h | h
  · simp [h]
  · simp [h]

theorem runParse_append (st : PState) (xs ys : List Line) :
    runParse st (xs ++ ys) = (runParse st xs).bind (fun st' => runParse st' ys) := by
  induction xs generalizing st with
  | nil => simp [runParse]
  | cons l ls ih =>
    simp only [List.cons_append, runParse]
    cases parseLine st l <;> simp [ih]

theorem parseLine_week {st : PState} {l : Line} (hw : isWeekHeader l = true) :
    parseLine st l = some ⟨(flushB st).sections ++ (match (flushB st).currentWeek with
      | some w => [Sect.week w]
      | none => []),
      some ⟨l, weekNumberOf l, [], []⟩, none, none, []⟩ := by
  simp only [parseLine, if_pos hw]

theorem parseLine_day_fresh {st : PState} {l : Line} (hw : isWeekHeader l = false)
    (hd : isDayHeader l = true) (hday : (flushB st).currentDay = none) :
    parseLine st l = some { flushB st with
      currentDay := some ⟨l, dayDateOf l, [], []⟩
      currentTask := none } := by
  simp only [parseLine, hw, Bool.false_eq_true, if_false, if_pos hd, hday]

theorem parseLine_task {st : PState} {l : Line} (hw : isWeekHeader l = false)
    (hd : isDayHeader l = false) (hday : st.currentDay.isSome = true)
    (htl : isTaskLine l = true) {tid sum : Line} (hcap : taskCapture l = some (tid, sum)) :
    parseLine st l = some { (match (flushB st).currentTask, (flushB st).currentDay with
      | some t, some d =>
        { flushB st with
          currentDay := some { d with tasks := d.tasks ++ [t] }
          currentTask := none }
      | _, _ => flushB st) with currentTask := some ⟨tid, sum, []⟩ } := by
  simp only [parseLine, hw, hd, Bool.false_eq_true, if_false, hday, htl, Bool.and_self,
    if_true, hcap]

theorem runParse_plain {xs : List Line} :
    ∀ {st : PState}, (∀ l ∈ xs, isWeekHeader l = false ∧ isDayHeader l = false ∧
      (st.currentDay.isSome = false ∨ isTaskLine l = false)) →
    runParse st xs = some { st with buffer := st.buffer ++ xs } := by
  induction xs with
  | nil => intro st h; simp [runParse]
  | cons l ls ih =>
    intro st h
    obtain ⟨h1, h2, h3⟩ := h l (by simp)
    have hnext : ∀ l' ∈ ls, isWeekHeader l' = false ∧ isDayHeader l' = false ∧
        (({ st with buffer := st.buffer ++ [l] } : PState).currentDay.isSome = false ∨
          isTaskLine l' = false) := by
      intro l' hl'
      have := h l' (List.mem_cons_of_mem _ hl')
      exact ⟨this.1, this.2.1, by simpa using this.2.2⟩
    simp only [runParse, parseLine_plain h1 h2 h3, Option.some_bind]
    rw [ih hnext]
    simp

/-! ### The first call on a missing month file, fully characterized -/

theorem parseWorklog_newFileLines (cd : CivDate) :
    parseWorklog (newFileLines cd) = some [Sect.header (newFileLines cd)] := by
  have hplain : ∀ l ∈ newFileLines cd, isWeekHeader l = false ∧ isDayHeader l = false ∧
      ((initPState).currentDay.isSome = false ∨ isTaskLine l = false) := by
    intro l hl
    simp only [newFileLines, List.mem_cons, List.not_mem_nil] at hl
    rcases hl with h | h | h
    · subst h; exact ⟨isWeekHeader_title _, isDayHeader_title _, Or.inl rfl⟩
    · subst h; exact ⟨isWeekHeader_nil, isDayHeader_nil, Or.inl rfl⟩
    · cases h
  simp only [parseWorklog, runParse_plain hplain]
  simp [finishParse, flushB, initPState, newFileLines]

/-- The document produced by the first `logWork` call on a missing file. -/
def freshSections (cd : CivDate) (tid sum : Line) (items : List Line) : List Sect :=
  [Sect.header (newFileLines cd),
   Sect.week ⟨weekHeaderLineOf (getWeekNumber (daysFromCivil cd.year cd.month cd.day)),
     getWeekNumber (daysFromCivil cd.year cd.month cd.day),
     [[], lastWeekLine, [], thisWeekLine, []],
     [⟨'#' :: '#' :: '#' :: ' ' :: formatDateHeader cd, formatDateHeader cd, [],
       [⟨tid, sum, addWorkItems [] items⟩]⟩]⟩]

theorem updateSections_fresh (hl : List Line) (wn : Int) (whl dh tid sum : Line)
    (items : List Line) :
    updateSections [Sect.header hl] wn whl dh tid sum items
      = [Sect.header hl,
         Sect.week ⟨whl, wn, [[], lastWeekLine, [], thisWeekLine, []],
           [⟨'#' :: '#' :: '#' :: ' ' :: dh, dh, [], [⟨tid, sum, addWorkItems [] items⟩]⟩]⟩] := by
  simp [updateSections, findWeekS, weeksOf, weekOf, findDayS, findTaskT, sortBy, insertBy,
    sectLe, replaceFirstDay, replaceFirstWeek, List.filterMap]

set_option maxHeartbeats 1000000 in
theorem logWork_fresh {tid sum : Line} {items : List Line} {ds : Line} {today : CivDate}
    {dirE : Bool} {cd : CivDate} (htid : tid ≠ []) (hsum : sum ≠ []) (hitems : items ≠ [])
    (hds : ds ≠ []) (hparse : jsDateParse ds = some cd) :
    logWork tid sum items (some ds) today dirE none =
      ((if dirE then [] else [FSOp.mkdirLogs]) ++
        [FSOp.writeFile (monthKey cd) (writtenLines (freshSections cd tid sum items))],
       Except.ok ⟨monthKey cd, ds, formatDateHeader cd,
         writtenLines (freshSections cd tid sum items), freshSections cd tid sum items⟩) := by
  have hguard : ¬ (tid = [] ∨ sum = [] ∨ items = []) := by simp [htid, hsum, hitems]
  simp only [logWork, if_neg hguard, if_neg hds, hparse, parseWorklog_newFileLines,
    updateSections_fresh, freshSections]
  simp

/-- Claim C5: if the tracking id is empty, or the summary is empty, or the work-item
    list is empty, `logWork` fails with the missing-fields error and performs no file
    I/O at all: no file is read, created or written, and no directory is created
    (the validation throw precedes every file-system call in the source). -/
theorem c5_missing_fields_no_io (trackingId summary : Line) (workItems : List Line)
    (dateArg : Option Line) (today : CivDate) (dirExists : Bool)
    (existing : Option (List Line))
    (h : trackingId = [] ∨ summary = [] ∨ workItems = []) :
    logWork trackingId summary workItems dateArg today dirExists existing
      = ([], Except.error LogError.missingFields) := by
  simp only [logWork, if_pos h]

/-- Witness for C5: an empty work-item list aborts with no file operations. -/
theorem c5_missing_fields_no_io_witness :
    logWork ("AB-1".data) ("s".data) [] (some ("2026-01-28".data)) ⟨2026, 1, 28⟩ false none
      = ([], Except.error LogError.missingFields) :=
  c5_missing_fields_no_io ("AB-1".data) ("s".data) [] (some ("2026-01-28".data))
    ⟨2026, 1, 28⟩ false none (Or.inr (Or.inr rfl))

/-- Claim C6 counterexample: the empty string is an input string that cannot be
    parsed as a calendar date, yet `logWork` does not fail with the invalid-date
    error on it — `date || fallback` treats `""` like an absent option, silently
    falls back to the current date, and writes the file. -/
theorem c6_counterexample :
    jsDateParse [] = none
    ∧ ((logWork ("AB-1".data) ("s".data) [("w".data)] (some []) ⟨2026, 1, 28⟩ true
        none).2).isOk = true
    ∧ (logWork ("AB-1".data) ("s".data) [("w".data)] (some []) ⟨2026, 1, 28⟩ true
        none).1 ≠ [] := by
  refine ⟨rfl, by decide, by decide⟩

/-- Claim C6 (amended): for every nonempty input string that cannot be parsed as a
    calendar date, `logWork` (with the required fields present) fails with the
    invalid-date error and aborts before any file operation — no silent fallback;
    the empty string, however, is treated like an absent `--date` and falls back to
    the current date. -/
theorem c6_invalid_date_aborts (trackingId summary : Line) (workItems : List Line)
    (s : Line) (today : CivDate) (dirExists : Bool) (existing : Option (List Line))
    (htid : trackingId ≠ []) (hsum : summary ≠ []) (hitems : workItems ≠ [])
    (hne : s ≠ []) (hbad : jsDateParse s = none) :
    logWork trackingId summary workItems (some s) today dirExists existing
      = ([], Except.error LogError.invalidDate) := by
  have hguard : ¬ (trackingId = [] ∨ summary = [] ∨ workItems = []) := by
    simp [htid, hsum, hitems]
  simp only [logWork, if_neg hguard, if_neg hne, hbad]

/-- Witness for C6 (amended) at the unparseable date string `2026-13-05`. -/
theorem c6_invalid_date_aborts_witness :
    logWork ("AB-1".data) ("s".data) [("w".data)] (some ("2026-13-05".data)) ⟨2026, 1, 28⟩
      false none = ([], Except.error LogError.invalidDate) :=
  c6_invalid_date_aborts ("AB-1".data) ("s".data) [("w".data)] ("2026-13-05".data)
    ⟨2026, 1, 28⟩ false none (by decide) (by decide) (by decide) (by decide) (by decide)

/-- Claim C7 counterexample: for 2026-01-28 with the month file missing, the
    synthesized title (the first line of the written file) is
    `# 2026/01 Contribution log` — the `YYYY-MM` month key with its hyphen replaced
    by a slash — not `# January 2026 Contribution log` with a month name and year as
    the claim states. -/
theorem c7_counterexample :
    (match (logWork ("PROJ-123".data) ("Dashboard".data) [("w".data)]
        (some ("2026-01-28".data)) ⟨2026, 1, 28⟩ true none).2 with
     | Except.ok r => r.written.head?
     | Except.error _ => none) = some ("# 2026/01 Contribution log".data)
    ∧ ("# 2026/01 Contribution log".data : Line) ≠ ("# January 2026 Contribution log".data) := by
  exact ⟨by decide, by decide⟩

/-- Claim C7 (amended): when the target monthly worklog file does not exist, the
    entry point synthesizes as starting text a single title line
    `# YYYY/MM Contribution log` — the month key of the input date with its hyphen
    replaced by a slash — plus a trailing newline, and that title line is the first
    line of the file it writes. -/
theorem c7_missing_file_title (tid sum : Line) (items : List Line) (ds : Line)
    (today : CivDate) (dirE : Bool) (cd : CivDate) (htid : tid ≠ []) (hsum : sum ≠ [])
    (hitems : items ≠ []) (hds : ds ≠ []) (hparse : jsDateParse ds = some cd) :
    newFileLines cd
      = ['#' :: ' ' :: (intDigits cd.year ++ '/' :: (pad2 cd.month ++ " Contribution log".data)),
         []]
    ∧ (match (logWork tid sum items (some ds) today dirE none).2 with
       | Except.ok r => r.written.head?
       | Except.error _ => none)
      = some ('#' :: ' ' :: (intDigits cd.year ++ '/' :: (pad2 cd.month ++ " Contribution log".data))) := by
  refine ⟨rfl, ?_⟩
  rw [logWork_fresh htid hsum hitems hds hparse]
  simp [writtenLines, renderSections, freshSections, newFileLines, headerLinesOf, weeksOf,
    weekOf, List.filterMap]

/-- Witness for C7 (amended) at 2026-01-28. -/
theorem c7_missing_file_title_witness :
    (match (logWork ("AB-1".data) ("s".data) [("w".data)] (some ("2026-01-28".data))
        ⟨2026, 1, 28⟩ false none).2 with
     | Except.ok r => r.written.head?
     | Except.error _ => none)
      = some ('#' :: ' ' :: (intDigits (2026 : Int) ++ '/' :: (pad2 1 ++ " Contribution log".data))) :=
  (c7_missing_file_title ("AB-1".data) ("s".data) [("w".data)] ("2026-01-28".data)
    ⟨2026, 1, 28⟩ false ⟨2026, 1, 28⟩ (by decide) (by decide) (by decide) (by decide)
    (by decide)).2

/-! ### Claim C9: task lines outside a day section -/

theorem isTaskLine_shape {l : Line} (h : isTaskLine l = true) :
    ∃ rest, l = '-' :: ' ' :: rest := by
  simp only [isTaskLine] at h
  split at h
  · exact ⟨_, rfl⟩
  · cases h

theorem flushB_currentDay (st : PState) (hd : st.currentDay = none)
    (ht : st.currentTask = none) : (flushB st).currentDay = none := by
  simp only [flushB, hd, ht]
  split
  · exact hd
  · cases hw : st.currentWeek <;> simp [hd]

theorem flushB_currentTask (st : PState) (ht : st.currentTask = none) :
    (flushB st).currentTask = none := by
  simp only [flushB, ht]
  split
  · exact ht
  · cases hd : st.currentDay
    · cases hw : st.currentWeek <;> simp [ht]
    · simp [ht]

theorem flushB_noday (st : PState) (hd : st.currentDay = none) (ht : st.currentTask = none) :
    weeksOf (flushB st).sections = weeksOf st.sections
    ∧ ((flushB st).currentWeek.map WeekS.days) = (st.currentWeek.map WeekS.days) := by
  simp only [flushB, hd, ht]
  split
  · exact ⟨rfl, rfl⟩
  · cases hw : st.currentWeek <;> simp [weeksOf, weekOf, List.filterMap_append]

theorem runParse_noday {ls : List Line} :
    ∀ {st st' : PState}, (∀ l ∈ ls, isDayHeader l = false) →
      st.currentDay = none → st.currentTask = none →
      (∀ w ∈ weeksOf st.sections, w.days = []) →
      (∀ w, st.currentWeek = some w → w.days = []) →
      runParse st ls = some st' →
      st'.currentDay = none ∧ st'.currentTask = none ∧
        (∀ w ∈ weeksOf st'.sections, w.days = []) ∧
        (∀ w, st'.currentWeek = some w → w.days = []) := by
  induction ls with
  | nil =>
    intro st st' _ h1 h2 h3 h4 hrun
    simp only [runParse] at hrun
    cases hrun
    exact ⟨h1, h2, h3, h4⟩
  | cons l ls ih =>
    intro st st' hnd h1 h2 h3 h4 hrun
    have hl := hnd l (by simp)
    have hnd' : ∀ x ∈ ls, isDayHeader x = false := fun x hx => hnd x (List.mem_cons_of_mem _ hx)
    obtain ⟨hwk, hcw⟩ := flushB_noday st h1 h2
    have hfd := flushB_currentDay st h1 h2
    have hft := flushB_currentTask st h2
    simp only [runParse] at hrun
    by_cases hw : isWeekHeader l = true
    · rw [parseLine_week hw, Option.some_bind] at hrun
      refine ih hnd' rfl rfl ?_ ?_ hrun
      · intro w hwmem
        simp only [weeksOf, List.filterMap_append] at hwmem
        rcases List.mem_append.mp hwmem with hm | hm
        · rw [show (List.filterMap weekOf (flushB st).sections) = weeksOf (flushB st).sections
              from rfl, hwk] at hm
          exact h3 w hm
        · rcases hcw2 : (flushB st).currentWeek with _ | w2
          · rw [hcw2] at hm
            simp at hm
          · rw [hcw2] at hm
            simp only [weekOf, List.filterMap] at hm
            have hww : w = w2 := by simpa using hm
            subst hww
            have heq := hcw
            rw [hcw2] at heq
            cases hcw0 : st.currentWeek with
            | none => rw [hcw0] at heq; simp at heq
            | some w0 =>
              rw [hcw0] at heq
              simp only [Option.map] at heq
              have : w.days = w0.days := by injection heq
              rw [this]
              exact h4 w0 hcw0
      · intro w hwq
        injection hwq with hwq
        rw [← hwq]
    · by_cases hdh : isDayHeader l = true
      · rw [hl] at hdh
        cases hdh
      · have hnottask : (st.currentDay.isSome && isTaskLine l) = false := by
          rw [h1]
          rfl
        have hpl : parseLine st l = some { st with buffer := st.buffer ++ [l] } := by
          simp only [parseLine, hw, Bool.false_eq_true, if_false,
            (by simpa using hdh : isDayHeader l = false), hnottask]
        rw [hpl, Option.some_bind] at hrun
        exact ih hnd' (by simpa using h1) (by simpa using h2) (by simpa using h3)
          (by simpa using h4) hrun

/-- Claim C9: a line matching the task-line pattern `- TRACKINGID: summary` that
    occurs while no day section is open is not parsed as a task entry: the parser
    simply buffers it like any other unrecognized line; the buffer is flushed as
    generic content of the innermost open node — week content when a week is open,
    a header block when nothing is — and a text with no day headers parses to a
    document in which no week section has any day (hence no task entry at all). -/
theorem c9_task_outside_day :
    (∀ (st : PState) (l : Line), isTaskLine l = true → st.currentDay = none →
      parseLine st l = some { st with buffer := st.buffer ++ [l] })
    ∧ (∀ st : PState, st.currentTask = none → st.currentDay = none → st.buffer ≠ [] →
        (∀ w, st.currentWeek = some w →
          flushB st = { st with
            currentWeek := some { w with content := w.content ++ st.buffer }
            buffer := [] })
        ∧ (st.currentWeek = none →
          flushB st = { st with
            sections := st.sections ++ [Sect.header st.buffer]
            buffer := [] }))
    ∧ (∀ (ls : List Line) (ss : List Sect), (∀ l ∈ ls, isDayHeader l = false) →
        parseWorklog ls = some ss → ∀ w ∈ weeksOf ss, w.days = []) := by
  refine ⟨?_, ?_, ?_⟩
  · intro st l htl hday
    obtain ⟨rest, hrest⟩ := isTaskLine_shape htl
    subst hrest
    exact parseLine_plain (isWeekHeader_task _) (isDayHeader_task _) (Or.inl (by simp [hday]))
  · intro st ht hd hbuf
    constructor
    · intro w hw
      simp only [flushB, if_neg hbuf, ht, hd, hw]
    · intro hw
      simp only [flushB, if_neg hbuf, ht, hd, hw]
  · intro ls ss hnd hparse
    simp only [parseWorklog] at hparse
    rcases hrun : runParse initPState ls with _ | st
    · rw [hrun] at hparse; cases hparse
    · rw [hrun] at hparse
      obtain ⟨hd', ht', h3', h4'⟩ := runParse_noday hnd rfl rfl
        (by simp [initPState, weeksOf, List.filterMap]) (by simp [initPState]) hrun
      obtain ⟨hwk, hcwd⟩ := flushB_noday st hd' ht'
      have hftask := flushB_currentTask st ht'
      have hfday := flushB_currentDay st hd' ht'
      simp only [finishParse, hftask, hfday] at hparse
      rcases hcw2 : (flushB st).currentWeek with _ | w2
      · rw [hcw2] at hparse
        simp only at hparse
        cases hparse
        intro w hm
        rw [hwk] at hm
        exact h3' w hm
      · rw [hcw2] at hparse
        simp only at hparse
        cases hparse
        intro w hwmem
        simp only [weeksOf, List.filterMap_append] at hwmem
        rcases List.mem_append.mp hwmem with hm | hm
        · rw [show List.filterMap weekOf (flushB st).sections = weeksOf (flushB st).sections
            from rfl] at hm
          rw [hwk] at hm
          exact h3' w hm
        · simp only [weekOf, List.filterMap] at hm
          have hww : w = w2 := by simpa using hm
          subst hww
          have heq := hcwd
          rw [hcw2] at heq
          cases hcw0 : st.currentWeek with
          | none => rw [hcw0] at heq; simp at heq
          | some w0 =>
            rw [hcw0] at heq
            simp only [Option.map] at heq
            have hde : w.days = w0.days := by injection heq
            rw [hde]
            exact h4' w0 hcw0

/-- Witness for C9: a task-pattern line with a week open but no day open is buffered,
    not turned into a task entry. -/
theorem c9_task_outside_day_witness :
    parseLine ⟨[], some ⟨"## Week 5".data, 5, [], []⟩, none, none, []⟩ ("- AB-1: x".data)
      = some ⟨[], some ⟨"## Week 5".data, 5, [], []⟩, none, none, ["- AB-1: x".data]⟩ :=
  c9_task_outside_day.1 ⟨[], some ⟨"## Week 5".data, 5, [], []⟩, none, none, []⟩
    ("- AB-1: x".data) (by decide) rfl

/-! ### Claim C10: the work-item duplicate check -/

theorem workLine_inj {a b : Line} (h : workLine a = workLine b) : a = b := by
  simpa [workLine] using h

theorem addWorkItems_mem_superset {c : List Line} {wl : Line} (h : wl ∈ c)
    (items : List Line) : wl ∈ addWorkItems c items := by
  induction items generalizing c with
  | nil => exact h
  | cons it its ih =>
    simp only [addWorkItems, List.foldl]
    split
    · exact ih h
    · exact ih (List.mem_append_left _ h)

theorem addWorkItems_nil (c : List Line) : addWorkItems c [] = c := rfl

theorem addWorkItems_cons (c : List Line) (it : Line) (its : List Line) :
    addWorkItems c (it :: its)
      = addWorkItems (if workLine it ∈ c then c else c ++ [workLine it]) its := rfl

theorem count_addWorkItems_of_mem {c : List Line} {item : Line} (h : workLine item ∈ c)
    (items : List Line) :
    (addWorkItems c items).count (workLine item) = c.count (workLine item) := by
  induction items generalizing c with
  | nil => rfl
  | cons it its ih =>
    rw [addWorkItems_cons]
    split <;> rename_i hmem
    · exact ih h
    · rw [ih (List.mem_append_left _ h)]
      have hne : workLine it ≠ workLine item := by
        intro he
        exact hmem (he ▸ h)
      simp [List.count_append, List.count_singleton, hne, Ne.symm hne]

theorem count_addWorkItems_of_not_mem_mem {c : List Line} {item : Line}
    (h : workLine item ∉ c) {items : List Line} (hit : item ∈ items) :
    (addWorkItems c items).count (workLine item) = 1 := by
  induction items generalizing c with
  | nil => cases hit
  | cons it its ih =>
    rw [addWorkItems_cons]
    by_cases hii : it = item
    · subst hii
      rw [if_neg h, count_addWorkItems_of_mem (List.mem_append_right _ (by simp)) its,
        List.count_append]
      simp [List.count_eq_zero.mpr h]
    · have hne : workLine it ≠ workLine item := fun he => hii (workLine_inj he)
      have hit' : item ∈ its := by
        rcases List.mem_cons.mp hit with he | hm
        · exact absurd he.symm hii
        · exact hm
      split <;> rename_i hmem
      · exact ih h hit'
      · refine ih ?_ hit'
        intro hin
        rcases List.mem_append.mp hin with hin | hin
        · exact h hin
        · simp only [List.mem_singleton] at hin
          exact hne hin.symm

theorem count_addWorkItems_of_not_mem_not_mem {c : List Line} {item : Line}
    (h : workLine item ∉ c) {items : List Line} (hit : item ∉ items) :
    (addWorkItems c items).count (workLine item) = 0 := by
  induction items generalizing c with
  | nil => exact List.count_eq_zero.mpr h
  | cons it its ih =>
    rw [addWorkItems_cons]
    have hii : it ≠ item := fun he => hit (List.mem_cons.mpr (Or.inl he.symm))
    have hne : workLine it ≠ workLine item := fun he => hii (workLine_inj he)
    have hit' : item ∉ its := fun hm => hit (List.mem_cons_of_mem _ hm)
    split <;> rename_i hmem
    · exact ih h hit'
    · refine ih ?_ hit'
      intro hin
      rcases List.mem_append.mp hin with hin | hin
      · exact h hin
      · simp only [List.mem_singleton] at hin
        exact hne hin.symm

/-- First matching day of the first matching week of a document. -/
def findDayDoc (ss : List Sect) (wn : Int) (dh : Line) : Option DayS :=
  match findWeekS ss wn with
  | none => none
  | some w => findDayS w.days dh

/-- The task entry reached through the first matching week, day and tracking id. -/
def findTaskDoc (ss : List Sect) (wn : Int) (dh tid : Line) : Option TaskE :=
  match findDayDoc ss wn dh with
  | none => none
  | some d => findTaskT d.tasks tid

theorem updateSections_found {ss : List Sect} {wn : Int} {whl dh tid sum : Line}
    {items : List Line} {w1 : WeekS} {d1 : DayS} {t1 : TaskE}
    (hw : findWeekS ss wn = some w1) (hd : findDayS w1.days dh = some d1)
    (ht : findTaskT d1.tasks tid = some t1) :
    updateSections ss wn whl dh tid sum items
      = replaceFirstWeek ss wn
          { w1 with days := (replaceFirstDay w1.days dh
            { d1 with tasks := (replaceFirstTask d1.tasks tid
              ⟨t1.trackingId, sum, addWorkItems t1.content items⟩) }) } := by
  simp only [updateSections, hw, hd, ht]

theorem findWeekS_replaceFirstWeek {ss : List Sect} {wn : Int} {w1 w' : WeekS}
    (hfound : findWeekS ss wn = some w1) (hnum : w'.weekNumber = wn) :
    findWeekS (replaceFirstWeek ss wn w') wn = some w' := by
  induction ss with
  | nil => simp [findWeekS, weeksOf, List.filterMap] at hfound
  | cons s rest ih =>
    cases s with
    | header h =>
      simp only [replaceFirstWeek]
      have hf : findWeekS rest wn = some w1 := by
        simpa [findWeekS, weeksOf, weekOf, List.filterMap] using hfound
      simpa [findWeekS, weeksOf, weekOf, List.filterMap] using ih hf
    | week w =>
      simp only [replaceFirstWeek]
      by_cases hnw : (w.weekNumber == wn) = true
      · rw [if_pos hnw]
        simp [findWeekS, weeksOf, weekOf, List.filterMap, List.find?, hnum]
      · rw [if_neg hnw]
        simp only [findWeekS, weeksOf, weekOf, List.filterMap, List.find?] at hfound ⊢
        rw [Bool.not_eq_true] at hnw
        rw [hnw] at hfound ⊢
        exact ih hfound

theorem findDayS_replaceFirstDay {days : List DayS} {dh : Line} {d1 d' : DayS}
    (hfound : findDayS days dh = some d1) (hdate : d'.date = dh) :
    findDayS (replaceFirstDay days dh d') dh = some d' := by
  induction days with
  | nil => simp [findDayS] at hfound
  | cons d rest ih =>
    simp only [replaceFirstDay]
    by_cases hdd : (d.date == dh) = true
    · rw [if_pos hdd]
      simp [findDayS, List.find?, hdate]
    · rw [if_neg hdd]
      simp only [findDayS, List.find?] at hfound ⊢
      rw [Bool.not_eq_true] at hdd
      rw [hdd] at hfound ⊢
      exact ih hfound

theorem findTaskT_replaceFirstTask {ts : List TaskE} {tid : Line} {t1 t' : TaskE}
    (hfound : findTaskT ts tid = some t1) (hid : t'.trackingId = tid) :
    findTaskT (replaceFirstTask ts tid t') tid = some t' := by
  induction ts with
  | nil => simp [findTaskT] at hfound
  | cons t rest ih =>
    simp only [replaceFirstTask]
    by_cases htt : (t.trackingId == tid) = true
    · rw [if_pos htt]
      simp [findTaskT, List.find?, hid]
    · rw [if_neg htt]
      simp only [findTaskT, List.find?] at hfound ⊢
      rw [Bool.not_eq_true] at htt
      rw [htt] at hfound ⊢
      exact ih hfound

theorem mem_replaceFirstTask_of_ne {ts : List TaskE} {tid : Line} {t' t : TaskE}
    (hmem : t ∈ ts) (hne : t.trackingId ≠ tid) : t ∈ replaceFirstTask ts tid t' := by
  induction ts with
  | nil => cases hmem
  | cons t0 rest ih =>
    simp only [replaceFirstTask]
    rcases List.mem_cons.mp hmem with he | hm
    · subst he
      rw [if_neg (by simpa using hne)]
      exact List.mem_cons_self _ _
    · split
      · exact List.mem_cons_of_mem _ hm
      · exact List.mem_cons_of_mem _ (ih hm)

/-- Claim C10: the work-item loop appends the rendered line `'  - ' + item` to the
    target task exactly when that string is not already one of the task's content
    lines: a line already present — including a hand-written content line equal to
    it — suppresses the append and the count is unchanged; an absent line is
    appended exactly once; and the duplicate check never compares across tasks: on
    the found path the updated task's content is computed from that task's own prior
    content alone, and every other task of the day (different tracking id) survives
    unchanged. -/
theorem c10_work_item_dedup :
    (∀ (c : List Line) (item : Line) (items : List Line), workLine item ∈ c →
      (addWorkItems c items).count (workLine item) = c.count (workLine item))
    ∧ (∀ (c : List Line) (item : Line) (items : List Line),
        workLine item ∉ c → item ∈ items →
        (addWorkItems c items).count (workLine item) = 1)
    ∧ (∀ (c : List Line) (item : Line) (items : List Line),
        workLine item ∉ c → item ∉ items →
        (addWorkItems c items).count (workLine item) = 0)
    ∧ (∀ (ss : List Sect) (wn : Int) (whl dh tid sum : Line) (items : List Line)
        (w1 : WeekS) (d1 : DayS) (t1 : TaskE),
        findWeekS ss wn = some w1 → findDayS w1.days dh = some d1 →
        findTaskT d1.tasks tid = some t1 →
        findTaskDoc (updateSections ss wn whl dh tid sum items) wn dh tid
            = some ⟨t1.trackingId, sum, addWorkItems t1.content items⟩
          ∧ (∀ t ∈ d1.tasks, t.trackingId ≠ tid → ∀ d',
              findDayDoc (updateSections ss wn whl dh tid sum items) wn dh = some d' →
              t ∈ d'.tasks)) := by
  refine ⟨fun c item items h => count_addWorkItems_of_mem h items,
    fun c item items h hit => count_addWorkItems_of_not_mem_mem h hit,
    fun c item items h hit => count_addWorkItems_of_not_mem_not_mem h hit,
    ?_⟩
  intro ss wn whl dh tid sum items w1 d1 t1 hw hd ht
  have hw1n : w1.weekNumber = wn := by
    have := List.find?_some hw
    simpa using this
  have hd1d : d1.date = dh := by
    have := List.find?_some hd
    simpa using this
  have ht1i : t1.trackingId = tid := by
    have := List.find?_some ht
    simpa using this
  rw [updateSections_found hw hd ht]
  have hfw := findWeekS_replaceFirstWeek hw
    (show ({ w1 with days := (replaceFirstDay w1.days dh
      { d1 with tasks := (replaceFirstTask d1.tasks tid
        ⟨t1.trackingId, sum, addWorkItems t1.content items⟩) }) } : WeekS).weekNumber = wn
      from hw1n)
  have hfd := findDayS_replaceFirstDay hd
    (show ({ d1 with tasks := (replaceFirstTask d1.tasks tid
      ⟨t1.trackingId, sum, addWorkItems t1.content items⟩) } : DayS).date = dh from hd1d)
  have hft := findTaskT_replaceFirstTask ht
    (show (⟨t1.trackingId, sum, addWorkItems t1.content items⟩ : TaskE).trackingId = tid
      from ht1i)
  constructor
  · simp only [findTaskDoc, findDayDoc, hfw, hfd, hft]
  · intro t hmem hne d' hd'
    simp only [findDayDoc, hfw, hfd] at hd'
    cases hd'
    exact mem_replaceFirstTask_of_ne hmem hne

/-- Witness for C10: with an already-present hand-written line the append is
    suppressed, and a fresh item is appended exactly once. -/
theorem c10_work_item_dedup_witness :
    (addWorkItems [workLine ("w".data)] [("w".data)]).count (workLine ("w".data)) = 1
    ∧ (addWorkItems [] [("w".data)]).count (workLine ("w".data)) = 1 :=
  ⟨by rw [c10_work_item_dedup.1 [workLine ("w".data)] ("w".data) [("w".data)] (by decide)]
      decide,
   c10_work_item_dedup.2.1 [] ("w".data) [("w".data)] (by decide) (by decide)⟩

/-! ### Claim C2: the two sort orders and header placement -/

theorem insertBy_top {α : Type} {le : α → α → Bool} {x : α}
    (h : ∀ y, le x y = true) : ∀ l : List α, insertBy le x l = x :: l
  | [] => rfl
  | y :: l => by simp [insertBy, h y]

theorem mem_insertBy {α : Type} (le : α → α → Bool) (x a : α) :
    ∀ l : List α, a ∈ insertBy le x l ↔ a = x ∨ a ∈ l
  | [] => by simp [insertBy]
  | y :: l => by
    simp only [insertBy]
    split
    · simp [List.mem_cons]
    · rw [List.mem_cons, mem_insertBy le x a l, List.mem_cons]
      tauto

theorem mem_sortBy {α : Type} (le : α → α → Bool) (a : α) :
    ∀ l : List α, a ∈ sortBy le l ↔ a ∈ l
  | [] => Iff.rfl
  | x :: l => by
    simp only [sortBy]
    rw [mem_insertBy, mem_sortBy le a l, List.mem_cons]

theorem sortBy_headers_first (hs : List (List Line)) (l : List Sect) :
    sortBy sectLe (hs.map Sect.header ++ l)
      = hs.map Sect.header ++ sortBy sectLe l := by
  induction hs with
  | nil => simp
  | cons h rest ih =>
    simp only [List.map_cons, List.cons_append, sortBy, List.append_eq]
    rw [insertBy_top (fun y => by cases y <;> rfl), ih]

theorem insertBy_map {α β : Type} (f : α → β) (le : β → β → Bool) (le' : α → α → Bool)
    (h : ∀ a b, le (f a) (f b) = le' a b) (x : α) :
    ∀ l : List α, insertBy le (f x) (l.map f) = (insertBy le' x l).map f
  | [] => rfl
  | y :: l => by
    simp only [List.map_cons, insertBy, h x y]
    split <;> simp [List.map_cons, insertBy_map f le le' h x l]

theorem sortBy_map {α β : Type} (f : α → β) (le : β → β → Bool) (le' : α → α → Bool)
    (h : ∀ a b, le (f a) (f b) = le' a b) :
    ∀ l : List α, sortBy le (l.map f) = (sortBy le' l).map f
  | [] => rfl
  | x :: l => by
    simp only [List.map_cons, sortBy, sortBy_map f le le' h l]
    exact insertBy_map f le le' h x (sortBy le' l)

theorem pairwise_insertBy {α : Type} {le : α → α → Bool}
    (htot : ∀ a b, le a b = true ∨ le b a = true)
    (htrans : ∀ a b c, le a b = true → le b c = true → le a c = true) (x : α) :
    ∀ {l : List α}, l.Pairwise (fun a b => le a b = true) →
      (insertBy le x l).Pairwise (fun a b => le a b = true) := by
  intro l
  induction l with
  | nil => intro _; simp [insertBy]
  | cons y l ih =>
    intro hp
    rw [List.pairwise_cons] at hp
    obtain ⟨hy, hl⟩ := hp
    simp only [insertBy]
    split <;> rename_i hxy
    · rw [List.pairwise_cons]
      refine ⟨?_, List.pairwise_cons.mpr ⟨hy, hl⟩⟩
      intro b hb
      rcases List.mem_cons.mp hb with he | hm
      · subst he; exact hxy
      · exact htrans x y b hxy (hy b hm)
    · rw [List.pairwise_cons]
      constructor
      · intro b hb
        have hyx : le y x = true := by
          rcases htot x y with h | h
          · exact absurd h hxy
          · exact h
        rcases (mem_insertBy le x b l).mp hb with he | hm
        · subst he; exact hyx
        · exact hy b hm
      · exact ih hl

theorem pairwise_sortBy {α : Type} {le : α → α → Bool}
    (htot : ∀ a b, le a b = true ∨ le b a = true)
    (htrans : ∀ a b c, le a b = true → le b c = true → le a c = true) :
    ∀ l : List α, (sortBy le l).Pairwise (fun a b => le a b = true)
  | [] => by simp [sortBy]
  | x :: l => by
    simp only [sortBy]
    exact pairwise_insertBy htot htrans x (pairwise_sortBy htot htrans l)

/-- Parser invariant: the sections already emitted are some header blocks followed by
    some week sections, and no week section has been emitted while no week was open. -/
def HWState (st : PState) : Prop :=
  ∃ hs ws, st.sections = List.map Sect.header hs ++ List.map Sect.week ws
    ∧ (st.currentWeek = none → ws = [])

theorem flushB_hw {st : PState} (inv : HWState st) :
    (∃ hs ws, (flushB st).sections = List.map Sect.header hs ++ List.map Sect.week ws
      ∧ (st.currentWeek = none → ws = []))
    ∧ ((flushB st).currentWeek = none ↔ st.currentWeek = none) := by
  obtain ⟨hs, ws, hsec, hnil⟩ := inv
  simp only [flushB]
  split
  · exact ⟨⟨hs, ws, hsec, hnil⟩, Iff.rfl⟩
  · cases hct : st.currentTask with
    | some t => exact ⟨⟨hs, ws, hsec, hnil⟩, Iff.rfl⟩
    | none =>
      cases hcd : st.currentDay with
      | some d => exact ⟨⟨hs, ws, hsec, hnil⟩, Iff.rfl⟩
      | none =>
        cases hcw : st.currentWeek with
        | some w =>
          refine ⟨⟨hs, ws, hsec, fun hn => absurd hn (by simp [hcw])⟩, ?_⟩
          simp [hcw]
        | none =>
          refine ⟨⟨hs ++ [st.buffer], ws, ?_, fun _ => hnil hcw⟩, by simp [hcw]⟩
          rw [hsec, hnil hcw]
          simp

theorem parseLine_hw {st st' : PState} {l : Line} (h : parseLine st l = some st')
    (inv : HWState st) : HWState st' := by
  obtain ⟨⟨hs, ws, hsec, hnil⟩, hcw⟩ := flushB_hw inv
  simp only [parseLine] at h
  split at h
  · rcases hcw2 : (flushB st).currentWeek with _ | w
    · rw [hcw2] at h
      simp only at h
      cases h
      exact ⟨hs, ws, by simpa using hsec, by simp⟩
    · rw [hcw2] at h
      simp only at h
      cases h
      refine ⟨hs, ws ++ [w], ?_, by simp⟩
      simp only [List.map_append, List.map_cons, List.map_nil, ← List.append_assoc]
      rw [hsec]
  · split at h
    · rcases hcd : (flushB st).currentDay with _ | d
      · rw [hcd] at h
        cases h
        exact ⟨hs, ws, hsec, fun hn => hnil (hcw.mp (by simpa using hn))⟩
      · rw [hcd] at h
        rcases hcw2 : (flushB st).currentWeek with _ | w
        · rw [hcw2] at h
          cases h
        · rw [hcw2] at h
          cases h
          exact ⟨hs, ws, hsec, by simp⟩
    · split at h
      · rcases htc : taskCapture l with _ | p
        · rw [htc] at h
          cases h
        · rw [htc] at h
          cases h
          rcases hct : (flushB st).currentTask with _ | t <;>
            rcases hcd : (flushB st).currentDay with _ | d <;>
            simp only [hct, hcd] <;>
            exact ⟨hs, ws, hsec, fun hn => hnil (hcw.mp (by simpa using hn))⟩
      · cases h
        obtain ⟨hs0, ws0, hsec0, hnil0⟩ := inv
        exact ⟨hs0, ws0, hsec0, fun hn => hnil0 (by simpa using hn)⟩

theorem runParse_hw {ls : List Line} :
    ∀ {st st' : PState}, HWState st → runParse st ls = some st' → HWState st' := by
  induction ls with
  | nil =>
    intro st st' inv hrun
    simp only [runParse] at hrun
    cases hrun
    exact inv
  | cons l ls ih =>
    intro st st' inv hrun
    simp only [runParse] at hrun
    rcases hpl : parseLine st l with _ | st2
    · rw [hpl] at hrun
      cases hrun
    · rw [hpl, Option.some_bind] at hrun
      exact ih (parseLine_hw hpl inv) hrun

/-- A successfully parsed document is header blocks followed by week sections. -/
theorem parseWorklog_hw {ls : List Line} {ss : List Sect}
    (h : parseWorklog ls = some ss) :
    ∃ hs ws, ss = List.map Sect.header hs ++ List.map Sect.week ws := by
  simp only [parseWorklog] at h
  rcases hrun : runParse initPState ls with _ | st
  · rw [hrun] at h
    cases h
  · rw [hrun] at h
    have inv : HWState st := runParse_hw ⟨[], [], rfl, fun _ => rfl⟩ hrun
    obtain ⟨⟨hs, ws, hsec, hnil⟩, hcw⟩ := flushB_hw inv
    simp only [finishParse] at h
    rcases hct : (flushB st).currentTask with _ | t
    · rw [hct] at h
      simp only at h
      rcases hcd : (flushB st).currentDay with _ | d
      · rw [hcd] at h
        simp only at h
        rcases hcw2 : (flushB st).currentWeek with _ | w
        · rw [hcw2] at h
          cases h
          exact ⟨hs, ws, hsec⟩
        · rw [hcw2] at h
          cases h
          exact ⟨hs, ws ++ [w], by simp [hsec, ← List.append_assoc]⟩
      · rw [hcd] at h
        rcases hcw2 : (flushB st).currentWeek with _ | w
        · rw [hcw2] at h
          cases h
        · rw [hcw2] at h
          simp only at h
          cases h
          exact ⟨hs, ws ++ [{ w with days := w.days ++ [d] }],
            by simp [hsec, ← List.append_assoc]⟩
    · rw [hct] at h
      rcases hcd : (flushB st).currentDay with _ | d
      · rw [hcd] at h
        cases h
      · rw [hcd] at h
        simp only at h
        rcases hcw2 : (flushB st).currentWeek with _ | w
        · rw [hcw2] at h
          cases h
        · rw [hcw2] at h
          simp only at h
          cases h
          exact ⟨hs, ws ++ [{ w with days := w.days ++ [{ d with tasks := d.tasks ++ [t] }] }],
            by simp [hsec, ← List.append_assoc]⟩

/-- The week order on week sections agrees with the descending order on numbers. -/
def wkLe (a b : WeekS) : Bool := decide (b.weekNumber ≤ a.weekNumber)

theorem sectLe_week_week (a b : WeekS) : sectLe (Sect.week a) (Sect.week b) = wkLe a b := by
  simp only [sectLe, wkLe, decide_eq_decide]
  omega

theorem weeksOf_map_header (hs : List (List Line)) :
    weeksOf (List.map Sect.header hs) = [] := by
  induction hs with
  | nil => rfl
  | cons h rest ih => simpa [weeksOf, weekOf, List.filterMap] using ih

theorem weeksOf_append (a b : List Sect) : weeksOf (a ++ b) = weeksOf a ++ weeksOf b := by
  simp [weeksOf, List.filterMap_append]

theorem weeksOf_map_week (ws : List WeekS) : weeksOf (List.map Sect.week ws) = ws := by
  induction ws with
  | nil => rfl
  | cons w rest ih => simpa [weeksOf, weekOf, List.filterMap] using ih

theorem updateSections_newweek {ss : List Sect} {wn : Int} {whl dh tid sum : Line}
    {items : List Line} (hw : findWeekS ss wn = none) :
    updateSections ss wn whl dh tid sum items
      = replaceFirstWeek
          (sortBy sectLe (ss ++ [Sect.week ⟨whl, wn, [[], lastWeekLine, [], thisWeekLine, []], []⟩]))
          wn
          ⟨whl, wn, [[], lastWeekLine, [], thisWeekLine, []],
            [⟨'#' :: '#' :: '#' :: ' ' :: dh, dh, [], [⟨tid, sum, addWorkItems [] items⟩]⟩]⟩ := by
  simp [updateSections, hw, findDayS, findTaskT, sortBy, insertBy, replaceFirstDay]

theorem updateSections_found_newday {ss : List Sect} {wn : Int} {whl dh tid sum : Line}
    {items : List Line} {w1 : WeekS} (hw : findWeekS ss wn = some w1)
    (hd : findDayS w1.days dh = none) :
    updateSections ss wn whl dh tid sum items
      = replaceFirstWeek ss wn
          { w1 with days := (replaceFirstDay
              (sortBy dayLe (w1.days ++ [⟨'#' :: '#' :: '#' :: ' ' :: dh, dh, [], []⟩])) dh
              ⟨'#' :: '#' :: '#' :: ' ' :: dh, dh, [], [⟨tid, sum, addWorkItems [] items⟩]⟩) } := by
  simp [updateSections, hw, hd, findTaskT]

theorem weekNums_replaceFirstWeek {ss : List Sect} {wn : Int} {w' : WeekS}
    (h : w'.weekNumber = wn) :
    (weeksOf (replaceFirstWeek ss wn w')).map WeekS.weekNumber
      = (weeksOf ss).map WeekS.weekNumber := by
  induction ss with
  | nil => rfl
  | cons s rest ih =>
    cases s with
    | header hl => simpa [replaceFirstWeek, weeksOf, weekOf, List.filterMap] using ih
    | week w =>
      simp only [replaceFirstWeek]
      by_cases hnw : (w.weekNumber == wn) = true
      · rw [if_pos hnw]
        have : w.weekNumber = wn := by simpa using hnw
        simp [weeksOf, weekOf, List.filterMap, h, this]
      · rw [if_neg hnw]
        simpa [weeksOf, weekOf, List.filterMap] using ih

theorem dateVals_replaceFirstDay {days : List DayS} {dh : Line} {d' : DayS}
    (h : d'.date = dh) :
    (replaceFirstDay days dh d').map (fun d => dateValue d.date)
      = days.map (fun d => dateValue d.date) := by
  induction days with
  | nil => rfl
  | cons d rest ih =>
    simp only [replaceFirstDay]
    by_cases hdd : (d.date == dh) = true
    · rw [if_pos hdd]
      have : d.date = dh := by simpa using hdd
      simp [h, this]
    · rw [if_neg hdd]
      simpa using ih

theorem find?_week_unique {l : List WeekS} {wn : Int} {w0 : WeekS} (hmem : w0 ∈ l)
    (hnum : w0.weekNumber = wn) (huniq : ∀ w ∈ l, w.weekNumber = wn → w = w0) :
    l.find? (fun w => w.weekNumber == wn) = some w0 := by
  induction l with
  | nil => cases hmem
  | cons w rest ih =>
    simp only [List.find?]
    by_cases hnw : (w.weekNumber == wn) = true
    · rw [hnw]
      have : w = w0 := huniq w (List.mem_cons_self _ _) (by simpa using hnw)
      rw [this]
    · rw [Bool.not_eq_true] at hnw
      rw [hnw]
      have hm : w0 ∈ rest := by
        rcases List.mem_cons.mp hmem with he | hm
        · subst he
          simp [hnum] at hnw
        · exact hm
      exact ih hm (fun w2 h2 hn2 => huniq w2 (List.mem_cons_of_mem _ h2) hn2)

theorem wkLe_total (a b : WeekS) : wkLe a b = true ∨ wkLe b a = true := by
  simp only [wkLe, decide_eq_true_eq]
  omega

theorem wkLe_trans (a b c : WeekS) (h1 : wkLe a b = true) (h2 : wkLe b c = true) :
    wkLe a c = true := by
  simp only [wkLe, decide_eq_true_eq] at *
  omega

theorem dayLe_total (a b : DayS) : dayLe a b = true ∨ dayLe b a = true := by
  simp only [dayLe, decide_eq_true_eq]
  omega

theorem dayLe_trans (a b c : DayS) (h1 : dayLe a b = true) (h2 : dayLe b c = true) :
    dayLe a c = true := by
  simp only [dayLe, decide_eq_true_eq] at *
  omega

/-- Claim C2: when the update's derived week number has no matching week section,
    the created week is pushed and the sections re-sorted, leaving the document's
    week numbers sorted descending (and the fresh week's single day trivially
    sorted); when the update's day has no matching day section in its (found) week,
    that week's days end up sorted descending by date value; and the rendered output
    always places every header block before every week section. -/
theorem c2_sort_orders :
    (∀ (ls : List Line) (ss : List Sect) (wn : Int) (whl dh tid sum : Line)
        (items : List Line), parseWorklog ls = some ss → findWeekS ss wn = none →
      List.Pairwise (fun a b : Int => b ≤ a)
        ((weeksOf (updateSections ss wn whl dh tid sum items)).map WeekS.weekNumber)
      ∧ (∀ w', findWeekS (updateSections ss wn whl dh tid sum items) wn = some w' →
          List.Pairwise (fun a b : Int => b ≤ a)
            (w'.days.map (fun d => dateValue d.date))))
    ∧ (∀ (ss : List Sect) (wn : Int) (whl dh tid sum : Line) (items : List Line)
        (w1 : WeekS), findWeekS ss wn = some w1 → findDayS w1.days dh = none →
        ∀ w', findWeekS (updateSections ss wn whl dh tid sum items) wn = some w' →
        List.Pairwise (fun a b : Int => b ≤ a) (w'.days.map (fun d => dateValue d.date)))
    ∧ (∀ ss : List Sect, renderSections ss
        = (ss.map headerLinesOf).flatten ++ ((weeksOf ss).map renderWeek).flatten) := by
  refine ⟨?_, ?_, fun ss => rfl⟩
  · intro ls ss wn whl dh tid sum items hparse habsent
    obtain ⟨hs, ws, hsplit⟩ := parseWorklog_hw hparse
    subst hsplit
    have hwss : weeksOf (List.map Sect.header hs ++ List.map Sect.week ws) = ws := by
      rw [weeksOf_append, weeksOf_map_header, weeksOf_map_week, List.nil_append]
    have habs : ∀ w ∈ ws, w.weekNumber ≠ wn := by
      intro w hm heq
      have hn := List.find?_eq_none.mp (by rwa [findWeekS, hwss] at habsent) w hm
      simp [heq] at hn
    rw [updateSections_newweek habsent]
    have hsplit2 : (List.map Sect.header hs ++ List.map Sect.week ws) ++
        [Sect.week ⟨whl, wn, [[], lastWeekLine, [], thisWeekLine, []], []⟩]
        = List.map Sect.header hs ++ List.map Sect.week
            (ws ++ [⟨whl, wn, [[], lastWeekLine, [], thisWeekLine, []], []⟩]) := by
      simp
    rw [hsplit2, sortBy_headers_first, sortBy_map Sect.week sectLe wkLe sectLe_week_week]
    constructor
    · rw [weekNums_replaceFirstWeek (show ((⟨whl, wn, [[], lastWeekLine, [], thisWeekLine, []],
          [⟨'#' :: '#' :: '#' :: ' ' :: dh, dh, [], [⟨tid, sum, addWorkItems [] items⟩]⟩]⟩ :
          WeekS)).weekNumber = wn from rfl), weeksOf_append, weeksOf_map_header,
        weeksOf_map_week, List.nil_append]
      have hp := pairwise_sortBy wkLe_total wkLe_trans
        (ws ++ [⟨whl, wn, [[], lastWeekLine, [], thisWeekLine, []], []⟩])
      rw [List.pairwise_map]
      exact hp.imp (fun h => by simpa [wkLe] using h)
    · intro w' hfind
      have hfound : findWeekS (List.map Sect.header hs ++ List.map Sect.week
          (sortBy wkLe (ws ++ [⟨whl, wn, [[], lastWeekLine, [], thisWeekLine, []], []⟩])))
          wn = some ⟨whl, wn, [[], lastWeekLine, [], thisWeekLine, []], []⟩ := by
        rw [findWeekS, weeksOf_append, weeksOf_map_header, weeksOf_map_week,
          List.nil_append]
        refine find?_week_unique ?_ rfl ?_
        · exact (mem_sortBy _ _ _).mpr (List.mem_append_right _ (by simp))
        · intro w hm hn
          rcases List.mem_append.mp ((mem_sortBy _ _ _).mp hm) with hm2 | hm2
          · exact absurd hn (habs w hm2)
          · simpa using hm2
      rw [findWeekS_replaceFirstWeek hfound rfl] at hfind
      injection hfind with hfind
      rw [← hfind]
      simp
  · intro ss wn whl dh tid sum items w1 hfw hfd w' hfind
    rw [updateSections_found_newday hfw hfd] at hfind
    have hw1n : w1.weekNumber = wn := by simpa using List.find?_some hfw
    have hrepl := findWeekS_replaceFirstWeek hfw
      (show ({ w1 with days := (replaceFirstDay
          (sortBy dayLe (w1.days ++ [⟨'#' :: '#' :: '#' :: ' ' :: dh, dh, [], []⟩])) dh
          ⟨'#' :: '#' :: '#' :: ' ' :: dh, dh, [],
            [⟨tid, sum, addWorkItems [] items⟩]⟩) } : WeekS).weekNumber = wn from hw1n)
    rw [hrepl] at hfind
    injection hfind with hfind
    rw [← hfind]
    simp only
    rw [dateVals_replaceFirstDay (show ((⟨'#' :: '#' :: '#' :: ' ' :: dh, dh, [],
      [⟨tid, sum, addWorkItems [] items⟩]⟩ : DayS)).date = dh from rfl)]
    have hp := pairwise_sortBy dayLe_total dayLe_trans
      (w1.days ++ [⟨'#' :: '#' :: '#' :: ' ' :: dh, dh, [], []⟩])
    rw [List.pairwise_map]
    exact hp.imp (fun h => by simpa [dayLe] using h)

/-- Witness for C2: inserting week 5 into a file holding weeks 3 and 7 (in that
    order) leaves the week numbers sorted descending. -/
theorem c2_sort_orders_witness :
    List.Pairwise (fun a b : Int => b ≤ a)
      ((weeksOf (updateSections [Sect.week ⟨"## Week 3".data, 3, [], []⟩,
          Sect.week ⟨"## Week 7".data, 7, [], []⟩] 5 ("## Week 5".data) ("2026/01/28".data)
          ("AB-1".data) ("s".data) [("w".data)])).map WeekS.weekNumber) :=
  (c2_sort_orders.1 ["## Week 3".data, "## Week 7".data]
    [Sect.week ⟨"## Week 3".data, 3, [], []⟩, Sect.week ⟨"## Week 7".data, 7, [], []⟩]
    5 ("## Week 5".data) ("2026/01/28".data) ("AB-1".data) ("s".data) [("w".data)]
    (by decide) (by decide)).1

/-! ### Claim C1: the textual round trip -/

/-- Claim C1 counterexample: the spec's own example file (title, week 5, day
    2026/01/28, one task with one work item) does not survive `render ∘ parse`
    byte-for-byte: the rebuild inserts a separator blank line before each block and
    appends a trailing newline. -/
theorem c1_counterexample :
    (parseWorklog ["# 2026/01 Contribution log".data, "".data, "## Week 5".data, "".data,
        "Last week:".data, "".data, "This week:".data, "".data, "### 2026/01/28".data,
        "".data, "- PROJ-123: Dashboard Automations".data, "  - Implemented selector".data,
        "".data]).map writtenLines
      ≠ some ["# 2026/01 Contribution log".data, "".data, "## Week 5".data, "".data,
        "Last week:".data, "".data, "This week:".data, "".data, "### 2026/01/28".data,
        "".data, "- PROJ-123: Dashboard Automations".data, "  - Implemented selector".data,
        "".data] := by
  decide

/-- Claim C1 (amended): the rebuild appends a final newline (a trailing empty line)
    and inserts separators, so the only exact-round-trip-up-to-that-newline texts are
    the ones with no recognized structure: for text whose lines contain no week or
    day header, `render(parse(text))` is exactly the text plus one trailing empty
    line (every line having been kept, in order, as header-block content). -/
theorem c1_round_trip_plain (ls : List Line)
    (h : ∀ l ∈ ls, isWeekHeader l = false ∧ isDayHeader l = false) :
    (parseWorklog ls).map writtenLines = some (ls ++ [[]]) := by
  have hplain : ∀ l ∈ ls, isWeekHeader l = false ∧ isDayHeader l = false ∧
      ((initPState).currentDay.isSome = false ∨ isTaskLine l = false) :=
    fun l hl => ⟨(h l hl).1, (h l hl).2, Or.inl rfl⟩
  simp only [parseWorklog, runParse_plain hplain]
  by_cases hnil : ls = []
  · subst hnil
    rfl
  · simp only [finishParse, flushB, initPState]
    rw [if_neg (by simpa using hnil)]
    simp [writtenLines, renderSections, weeksOf, weekOf, headerLinesOf, List.filterMap]

/-- Witness for C1 (amended): a title-only file gains exactly a trailing newline. -/
theorem c1_round_trip_plain_witness :
    (parseWorklog ["# 2026/01 Contribution log".data]).map writtenLines
      = some (["# 2026/01 Contribution log".data] ++ [[]]) :=
  c1_round_trip_plain ["# 2026/01 Contribution log".data] (by decide)

/-! ### Claim C3: calling the update twice with identical arguments -/

theorem getWeekNumber_bounds (n : Int) : 1 ≤ getWeekNumber n ∧ getWeekNumber n ≤ 53 := by
  simp only [getWeekNumber, daysFromCivil_jan1]
  have hT : n + 4 - (if weekday n = 0 then (7 : Int) else weekday n)
      = n - (n + 3) % 7 + 3 := by
    simp only [weekday]
    split <;> omega
  rw [hT]
  obtain ⟨h1, h2⟩ := yearOfDay_spec (n - (n + 3) % 7 + 3)
  rw [daysBeforeYear_succ] at h2
  split at h2 <;> omega

theorem workLine_mem_addWorkItems {item : Line} {items : List Line} (hit : item ∈ items)
    (c : List Line) : workLine item ∈ addWorkItems c items := by
  induction items generalizing c with
  | nil => cases hit
  | cons it its ih =>
    rw [addWorkItems_cons]
    by_cases hii : it = item
    · subst hii
      split <;> rename_i hmem
      · exact addWorkItems_mem_superset hmem its
      · exact addWorkItems_mem_superset (List.mem_append_right _ (by simp)) its
    · have hit' : item ∈ its := by
        rcases List.mem_cons.mp hit with he | hm
        · exact absurd he.symm hii
        · exact hm
      split <;> exact ih hit' _

theorem mem_addWorkItems {l : Line} {c items : List Line}
    (h : l ∈ addWorkItems c items) : l ∈ c ∨ ∃ it ∈ items, l = workLine it := by
  induction items generalizing c with
  | nil => exact Or.inl h
  | cons it its ih =>
    rw [addWorkItems_cons] at h
    rcases (by assumption : l ∈ addWorkItems (if workLine it ∈ c then c
        else c ++ [workLine it]) its) with _
    rcases ih h with hin | hex
    · split at hin
      · exact Or.inl hin
      · rcases List.mem_append.mp hin with hin2 | hin2
        · exact Or.inl hin2
        · simp only [List.mem_singleton] at hin2
          exact Or.inr ⟨it, by simp, hin2⟩
    · obtain ⟨it2, hm2, he2⟩ := hex
      exact Or.inr ⟨it2, List.mem_cons_of_mem _ hm2, he2⟩

theorem dayDateOf_dayLine (dh : Line) : dayDateOf ('#' :: '#' :: '#' :: ' ' :: dh) = dh := rfl

theorem freshWritten_eq (cd : CivDate) (tid sum : Line) (items : List Line) :
    writtenLines (freshSections cd tid sum items)
      = ['#' :: ' ' :: (intDigits cd.year ++ '/' :: (pad2 cd.month ++ " Contribution log".data)),
          [], []]
        ++ weekHeaderLineOf (getWeekNumber (daysFromCivil cd.year cd.month cd.day))
          :: ([[], lastWeekLine, [], thisWeekLine, [], []]
        ++ ('#' :: '#' :: '#' :: ' ' :: formatDateHeader cd)
          :: ([[]]
        ++ ('-' :: ' ' :: (tid ++ ':' :: ' ' :: sum))
          :: (addWorkItems [] items ++ [[]]))) := by
  simp [writtenLines, renderSections, freshSections, renderWeek, renderDay, renderTask,
    headerLinesOf, weeksOf, weekOf, List.filterMap, newFileLines]

set_option maxHeartbeats 1000000 in
theorem parseWorklog_freshWritten {cd : CivDate} {us ds2 sum : Line} {items : List Line}
    (hus : us ≠ []) (husU : us.all Char.isUpper = true)
    (hds : ds2 ≠ []) (hdsD : ds2.all Char.isDigit = true)
    (hsum : sum ≠ []) (hnl : '\n' ∉ sum)
    (hy1 : 1000 ≤ cd.year) (hy2 : cd.year ≤ 9999) :
    parseWorklog (writtenLines (freshSections cd (us ++ '-' :: ds2) sum items))
      = some [Sect.header
            ['#' :: ' ' :: (intDigits cd.year ++ '/' :: (pad2 cd.month ++ " Contribution log".data)),
             [], []],
          Sect.week ⟨weekHeaderLineOf (getWeekNumber (daysFromCivil cd.year cd.month cd.day)),
            getWeekNumber (daysFromCivil cd.year cd.month cd.day),
            [[], lastWeekLine, [], thisWeekLine, [], []],
            [⟨'#' :: '#' :: '#' :: ' ' :: formatDateHeader cd, formatDateHeader cd, [[]],
              [⟨us ++ '-' :: ds2, sum, addWorkItems [] items ++ [[]]⟩]⟩]⟩] := by
  have hwb := getWeekNumber_bounds (daysFromCivil cd.year cd.month cd.day)
  have hwn0 : (0 : Int) ≤ getWeekNumber (daysFromCivil cd.year cd.month cd.day) := by omega
  have hwn4 : getWeekNumber (daysFromCivil cd.year cd.month cd.day) < 10000 := by omega
  rw [freshWritten_eq]
  rw [parseWorklog]
  rw [runParse_append]
  rw [runParse_plain (by
    intro l hl
    simp only [List.mem_cons, List.not_mem_nil, or_false] at hl
    rcases hl with h | h | h <;> subst h <;>
      exact ⟨by simp [isWeekHeader_title, isWeekHeader_nil], by
        simp [isDayHeader_title, isDayHeader_nil], Or.inl rfl⟩)]
  simp only [Option.some_bind]
  rw [runParse]
  rw [parseLine_week (isWeekHeader_weekHeaderLineOf hwn0)]
  simp only [Option.some_bind, flushB, initPState]
  simp only [List.nil_append]
  rw [if_neg (List.cons_ne_nil _ _)]
  simp only []
  rw [weekNumberOf_weekHeaderLineOf hwn0 hwn4]
  rw [runParse_append]
  rw [runParse_plain (by
    intro l hl
    simp only [List.mem_cons, List.not_mem_nil, or_false] at hl
    rcases hl with h | h | h | h | h | h <;> subst h <;>
      exact ⟨by simp [isWeekHeader_nil, isWeekHeader_lastWeek, isWeekHeader_thisWeek],
        by simp [isDayHeader_nil, isDayHeader_lastWeek, isDayHeader_thisWeek], Or.inl rfl⟩)]
  simp only [Option.some_bind]
  rw [runParse]
  rw [parseLine_day_fresh (isWeekHeader_day _) (isDayHeader_dayLine hy1 hy2) (by
    simp [flushB])]
  simp only [Option.some_bind, flushB, List.nil_append]
  rw [if_neg (List.cons_ne_nil _ _)]
  simp only []
  rw [dayDateOf_dayLine]
  rw [runParse_append]
  rw [runParse_plain (by
    intro l hl
    simp only [List.mem_cons, List.not_mem_nil, or_false] at hl
    subst hl
    exact ⟨isWeekHeader_nil, isDayHeader_nil, Or.inr isTaskLine_nil⟩)]
  simp only [Option.some_bind]
  rw [runParse]
  rw [parseLine_task (isWeekHeader_task _) (isDayHeader_task _) (by simp)
    (isTaskLine_render hus husU hds hdsD)
    (taskCapture_render hus husU hds hdsD hsum hnl)]
  simp only [Option.some_bind, flushB, List.nil_append]
  rw [if_neg (List.cons_ne_nil _ _)]
  simp only []
  rw [runParse_append]
  rw [runParse_plain (by
    intro l hl
    rcases mem_addWorkItems hl with hin | ⟨it, hmem, he⟩
    · cases hin
    · subst he
      exact ⟨isWeekHeader_work _, isDayHeader_work _, Or.inr (isTaskLine_work _)⟩)]
  simp only [Option.some_bind]
  rw [runParse_plain (by
    intro l hl
    simp only [List.mem_singleton] at hl
    subst hl
    exact ⟨isWeekHeader_nil, isDayHeader_nil, Or.inr isTaskLine_nil⟩)]
  simp only [Option.some_bind]
  simp [finishParse, flushB]

/-- The task entry of a freshly created month file as it reads back after one parse:
    the work items, then the trailing blank line of the file. -/
def freshTaskE (tid sum : Line) (items : List Line) : TaskE :=
  ⟨tid, sum, addWorkItems [] items ++ [[]]⟩

/-- The day section of a freshly created month file as it reads back. -/
def freshDayS (cd : CivDate) (tid sum : Line) (items : List Line) : DayS :=
  ⟨'#' :: '#' :: '#' :: ' ' :: formatDateHeader cd, formatDateHeader cd, [[]],
   [freshTaskE tid sum items]⟩

/-- The week section of a freshly created month file as it reads back. -/
def freshWeekS (cd : CivDate) (tid sum : Line) (items : List Line) : WeekS :=
  ⟨weekHeaderLineOf (getWeekNumber (daysFromCivil cd.year cd.month cd.day)), getWeekNumber (daysFromCivil cd.year cd.month cd.day),
   [[], lastWeekLine, [], thisWeekLine, [], []],
   [freshDayS cd tid sum items]⟩

/-- The whole document of a freshly created month file as it reads back. -/
def freshParsedDoc (cd : CivDate) (tid sum : Line) (items : List Line) : List Sect :=
  [Sect.header
      ['#' :: ' ' :: (intDigits cd.year ++ '/' :: (pad2 cd.month ++ " Contribution log".data)),
       [], []],
   Sect.week (freshWeekS cd tid sum items)]

theorem findWeekS_freshParsedDoc (cd : CivDate) (tid sum : Line) (items : List Line) :
    findWeekS (freshParsedDoc cd tid sum items) (getWeekNumber (daysFromCivil cd.year cd.month cd.day))
      = some (freshWeekS cd tid sum items) := by
  simp [freshParsedDoc, freshWeekS, findWeekS, weeksOf, weekOf, List.filterMap, List.find?]

theorem findDayS_freshWeekS (cd : CivDate) (tid sum : Line) (items : List Line) :
    findDayS (freshWeekS cd tid sum items).days (formatDateHeader cd)
      = some (freshDayS cd tid sum items) := by
  simp [freshWeekS, freshDayS, findDayS, List.find?]

theorem findTaskT_freshDayS (cd : CivDate) (tid sum : Line) (items : List Line) :
    findTaskT (freshDayS cd tid sum items).tasks tid = some (freshTaskE tid sum items) := by
  simp [freshDayS, freshTaskE, findTaskT, List.find?]

set_option maxHeartbeats 1000000 in
/-- Claim C3: calling the update twice in succession with identical arguments (same
    date string, tracking id `US-DDD`, summary and work items), the second call
    reading back exactly the file the first call wrote onto an initially missing
    month file, succeeds both times and yields a document in which the task's
    content lines contain the rendered work line of each supplied item exactly
    once — the duplicate check suppresses every re-append (idempotent dedup). -/
theorem c3_idempotent_dedup {cd : CivDate} {us ds2 sum ds : Line} {items : List Line}
    (today today' : CivDate) (dirE dirE' : Bool)
    (hus : us ≠ []) (husU : us.all Char.isUpper = true)
    (hds2 : ds2 ≠ []) (hdsD : ds2.all Char.isDigit = true)
    (hsum : sum ≠ []) (hnl : '\n' ∉ sum)
    (hitems : items ≠ []) (hitnl : ∀ it ∈ items, '\n' ∉ it)
    (hdsne : ds ≠ []) (hparse : jsDateParse ds = some cd)
    (hy1 : 1000 ≤ cd.year) (hy2 : cd.year ≤ 9999) :
    ∃ r1 r2 : LogResult,
      (logWork (us ++ '-' :: ds2) sum items (some ds) today dirE none).2 = Except.ok r1
      ∧ (logWork (us ++ '-' :: ds2) sum items (some ds) today' dirE'
          (some r1.written)).2 = Except.ok r2
      ∧ ∀ item ∈ items,
          (findTaskDoc r2.sections (getWeekNumber (daysFromCivil cd.year cd.month cd.day))
              (formatDateHeader cd) (us ++ '-' :: ds2)).map
            (fun te => te.content.count (workLine item)) = some 1 := by
  have htid : (us ++ '-' :: ds2 : Line) ≠ [] := by simp
  have hguard : ¬ ((us ++ '-' :: ds2 : Line) = [] ∨ sum = [] ∨ items = []) := by
    simp [htid, hsum, hitems]
  have hfresh := @logWork_fresh (us ++ '-' :: ds2) sum items ds today dirE cd
    htid hsum hitems hdsne hparse
  have hdoc : parseWorklog (writtenLines (freshSections cd (us ++ '-' :: ds2) sum items))
      = some (freshParsedDoc cd (us ++ '-' :: ds2) sum items) :=
    @parseWorklog_freshWritten cd us ds2 sum items hus husU hds2 hdsD hsum hnl hy1 hy2
  have hw := findWeekS_freshParsedDoc cd (us ++ '-' :: ds2) sum items
  have hd := findDayS_freshWeekS cd (us ++ '-' :: ds2) sum items
  have ht := findTaskT_freshDayS cd (us ++ '-' :: ds2) sum items
  have husec : updateSections (freshParsedDoc cd (us ++ '-' :: ds2) sum items) (getWeekNumber (daysFromCivil cd.year cd.month cd.day)) (weekHeaderLineOf (getWeekNumber (daysFromCivil cd.year cd.month cd.day))) (formatDateHeader cd) (us ++ '-' :: ds2) sum items = replaceFirstWeek (freshParsedDoc cd (us ++ '-' :: ds2) sum items) (getWeekNumber (daysFromCivil cd.year cd.month cd.day)) ({ freshWeekS cd (us ++ '-' :: ds2) sum items with days := replaceFirstDay (freshWeekS cd (us ++ '-' :: ds2) sum items).days (formatDateHeader cd) { freshDayS cd (us ++ '-' :: ds2) sum items with tasks := replaceFirstTask (freshDayS cd (us ++ '-' :: ds2) sum items).tasks (us ++ '-' :: ds2) (⟨(freshTaskE (us ++ '-' :: ds2) sum items).trackingId, sum, addWorkItems (freshTaskE (us ++ '-' :: ds2) sum items).content items⟩ : TaskE) } }) :=
    updateSections_found hw hd ht
  have hw' : findWeekS (replaceFirstWeek (freshParsedDoc cd (us ++ '-' :: ds2) sum items) (getWeekNumber (daysFromCivil cd.year cd.month cd.day)) ({ freshWeekS cd (us ++ '-' :: ds2) sum items with days := replaceFirstDay (freshWeekS cd (us ++ '-' :: ds2) sum items).days (formatDateHeader cd) { freshDayS cd (us ++ '-' :: ds2) sum items with tasks := replaceFirstTask (freshDayS cd (us ++ '-' :: ds2) sum items).tasks (us ++ '-' :: ds2) (⟨(freshTaskE (us ++ '-' :: ds2) sum items).trackingId, sum, addWorkItems (freshTaskE (us ++ '-' :: ds2) sum items).content items⟩ : TaskE) } })) (getWeekNumber (daysFromCivil cd.year cd.month cd.day)) = some ({ freshWeekS cd (us ++ '-' :: ds2) sum items with days := replaceFirstDay (freshWeekS cd (us ++ '-' :: ds2) sum items).days (formatDateHeader cd) { freshDayS cd (us ++ '-' :: ds2) sum items with tasks := replaceFirstTask (freshDayS cd (us ++ '-' :: ds2) sum items).tasks (us ++ '-' :: ds2) (⟨(freshTaskE (us ++ '-' :: ds2) sum items).trackingId, sum, addWorkItems (freshTaskE (us ++ '-' :: ds2) sum items).content items⟩ : TaskE) } }) :=
    findWeekS_replaceFirstWeek hw rfl
  have hd' : findDayS ({ freshWeekS cd (us ++ '-' :: ds2) sum items with days := replaceFirstDay (freshWeekS cd (us ++ '-' :: ds2) sum items).days (formatDateHeader cd) { freshDayS cd (us ++ '-' :: ds2) sum items with tasks := replaceFirstTask (freshDayS cd (us ++ '-' :: ds2) sum items).tasks (us ++ '-' :: ds2) (⟨(freshTaskE (us ++ '-' :: ds2) sum items).trackingId, sum, addWorkItems (freshTaskE (us ++ '-' :: ds2) sum items).content items⟩ : TaskE) } }).days (formatDateHeader cd) = some ({ freshDayS cd (us ++ '-' :: ds2) sum items with tasks := replaceFirstTask (freshDayS cd (us ++ '-' :: ds2) sum items).tasks (us ++ '-' :: ds2) (⟨(freshTaskE (us ++ '-' :: ds2) sum items).trackingId, sum, addWorkItems (freshTaskE (us ++ '-' :: ds2) sum items).content items⟩ : TaskE) }) :=
    findDayS_replaceFirstDay hd rfl
  have ht' : findTaskT ({ freshDayS cd (us ++ '-' :: ds2) sum items with tasks := replaceFirstTask (freshDayS cd (us ++ '-' :: ds2) sum items).tasks (us ++ '-' :: ds2) (⟨(freshTaskE (us ++ '-' :: ds2) sum items).trackingId, sum, addWorkItems (freshTaskE (us ++ '-' :: ds2) sum items).content items⟩ : TaskE) }).tasks (us ++ '-' :: ds2) = some (⟨(freshTaskE (us ++ '-' :: ds2) sum items).trackingId, sum, addWorkItems (freshTaskE (us ++ '-' :: ds2) sum items).content items⟩ : TaskE) :=
    findTaskT_replaceFirstTask ht rfl
  have hfind : findTaskDoc (replaceFirstWeek (freshParsedDoc cd (us ++ '-' :: ds2) sum items) (getWeekNumber (daysFromCivil cd.year cd.month cd.day)) ({ freshWeekS cd (us ++ '-' :: ds2) sum items with days := replaceFirstDay (freshWeekS cd (us ++ '-' :: ds2) sum items).days (formatDateHeader cd) { freshDayS cd (us ++ '-' :: ds2) sum items with tasks := replaceFirstTask (freshDayS cd (us ++ '-' :: ds2) sum items).tasks (us ++ '-' :: ds2) (⟨(freshTaskE (us ++ '-' :: ds2) sum items).trackingId, sum, addWorkItems (freshTaskE (us ++ '-' :: ds2) sum items).content items⟩ : TaskE) } })) (getWeekNumber (daysFromCivil cd.year cd.month cd.day)) (formatDateHeader cd) (us ++ '-' :: ds2) = some (⟨(freshTaskE (us ++ '-' :: ds2) sum items).trackingId, sum, addWorkItems (freshTaskE (us ++ '-' :: ds2) sum items).content items⟩ : TaskE) := by
    simp only [findTaskDoc, findDayDoc, hw', hd', ht']
  have hcount : ∀ item ∈ items, ((⟨(freshTaskE (us ++ '-' :: ds2) sum items).trackingId, sum, addWorkItems (freshTaskE (us ++ '-' :: ds2) sum items).content items⟩ : TaskE)).content.count (workLine item) = 1 := by
    intro item hitem
    show (addWorkItems (addWorkItems [] items ++ [[]]) items).count (workLine item) = 1
    rw [count_addWorkItems_of_mem
      (List.mem_append_left _ (workLine_mem_addWorkItems hitem [])) items]
    rw [List.count_append]
    rw [count_addWorkItems_of_not_mem_mem (List.not_mem_nil _) hitem]
    rw [List.count_eq_zero.mpr (by simp [workLine] : workLine item ∉ [([] : Line)])]
  have hsecond : (logWork (us ++ '-' :: ds2) sum items (some ds) today' dirE'
      (some (writtenLines (freshSections cd (us ++ '-' :: ds2) sum items)))).2
      = Except.ok ⟨monthKey cd, ds, formatDateHeader cd,
          writtenLines (updateSections (freshParsedDoc cd (us ++ '-' :: ds2) sum items) (getWeekNumber (daysFromCivil cd.year cd.month cd.day)) (weekHeaderLineOf (getWeekNumber (daysFromCivil cd.year cd.month cd.day))) (formatDateHeader cd) (us ++ '-' :: ds2) sum items), updateSections (freshParsedDoc cd (us ++ '-' :: ds2) sum items) (getWeekNumber (daysFromCivil cd.year cd.month cd.day)) (weekHeaderLineOf (getWeekNumber (daysFromCivil cd.year cd.month cd.day))) (formatDateHeader cd) (us ++ '-' :: ds2) sum items⟩ := by
    simp only [logWork, if_neg hguard, if_neg hdsne, hparse, hdoc]
  refine ⟨⟨monthKey cd, ds, formatDateHeader cd,
      writtenLines (freshSections cd (us ++ '-' :: ds2) sum items),
      freshSections cd (us ++ '-' :: ds2) sum items⟩,
    ⟨monthKey cd, ds, formatDateHeader cd,
      writtenLines (updateSections (freshParsedDoc cd (us ++ '-' :: ds2) sum items) (getWeekNumber (daysFromCivil cd.year cd.month cd.day)) (weekHeaderLineOf (getWeekNumber (daysFromCivil cd.year cd.month cd.day))) (formatDateHeader cd) (us ++ '-' :: ds2) sum items), updateSections (freshParsedDoc cd (us ++ '-' :: ds2) sum items) (getWeekNumber (daysFromCivil cd.year cd.month cd.day)) (weekHeaderLineOf (getWeekNumber (daysFromCivil cd.year cd.month cd.day))) (formatDateHeader cd) (us ++ '-' :: ds2) sum items⟩,
    ?_, hsecond, ?_⟩
  · rw [hfresh]
  · intro item hitem
    show (findTaskDoc (updateSections (freshParsedDoc cd (us ++ '-' :: ds2) sum items) (getWeekNumber (daysFromCivil cd.year cd.month cd.day)) (weekHeaderLineOf (getWeekNumber (daysFromCivil cd.year cd.month cd.day))) (formatDateHeader cd) (us ++ '-' :: ds2) sum items) (getWeekNumber (daysFromCivil cd.year cd.month cd.day)) (formatDateHeader cd) (us ++ '-' :: ds2)).map
        (fun te => te.content.count (workLine item)) = some 1
    rw [husec, hfind]
    exact congrArg some (hcount item hitem)

/-- Witness for C3: two identical calls for `PROJ-123` on 2026-01-28, the second
    reading the file the first wrote, leave the single work item exactly once. -/
theorem c3_idempotent_dedup_witness :
    ∃ r1 r2 : LogResult,
      (logWork ("PROJ".data ++ '-' :: "123".data) ("s".data) [("w".data)]
        (some ("2026-01-28".data)) ⟨2026, 1, 28⟩ true none).2 = Except.ok r1
      ∧ (logWork ("PROJ".data ++ '-' :: "123".data) ("s".data) [("w".data)]
          (some ("2026-01-28".data)) ⟨2026, 1, 28⟩ true (some r1.written)).2 = Except.ok r2
      ∧ ∀ item ∈ [("w".data)],
          (findTaskDoc r2.sections (getWeekNumber (daysFromCivil 2026 1 28))
              (formatDateHeader ⟨2026, 1, 28⟩) ("PROJ".data ++ '-' :: "123".data)).map
            (fun te => te.content.count (workLine item)) = some 1 :=
  @c3_idempotent_dedup ⟨2026, 1, 28⟩ ("PROJ".data) ("123".data) ("s".data)
    ("2026-01-28".data) [("w".data)] ⟨2026, 1, 28⟩ ⟨2026, 1, 28⟩ true true
    (by decide) (by decide) (by decide) (by decide) (by decide) (by decide)
    (by decide) (by decide) (by decide) (by decide) (by decide) (by decide)
